import Mathlib

/-!
Verification of the PyWorks execution backbone.

This file gives a shallow embedding, in Lean, of the core execution pipeline
of the PyWorks visual workflow editor:

* `src/core/topological.py`   — Kahn's-algorithm topological sorter,
* `src/core/graph_builder.py` — construction/validation of the control-flow
  (FLOW) and data-flow (DATA) graphs from a layout description,
* `src/core/executor.py`      — script synthesis, the synthesized script's
  run-time semantics, the subprocess line-stream protocol, and the
  orchestrating `run()` of `WorkflowExecutor`,
* `src/core/ast_utils.py`     — static discovery of `@node`-decorated
  functions.

Python dictionaries are modelled as association lists (`List (String × α)`)
with insert-or-overwrite-in-place update, matching Python's dict semantics;
Python sets of dict keys are modelled as the key list in insertion order.
Machine-level Python exceptions are modelled by the `PyError` type and
`Except`.  Python string methods used by the executor (`startswith`, `strip`,
`rstrip`, `split`) are modelled explicitly over `List Char`.
-/

/-- Python exceptions raised by the modelled code: `ValueError(msg)` and
`KeyError(key)`. -/
inductive PyError where
  | valueError : String → PyError
  | keyError : String → PyError
deriving DecidableEq

/-- `str(e)` for a modelled Python exception: `str(ValueError(m)) = m`,
`str(KeyError(k)) = "'k'"`. -/
def PyError.str : PyError → String
  | .valueError m => m
  | .keyError k => "'" ++ k ++ "'"

/-- `d.get(k, default)` on a Python dict modelled as an association list. -/
def dictGet {α : Type} (m : List (String × α)) (k : String) (dflt : α) : α :=
  match m with
  | [] => dflt
  | p :: r => if p.1 = k then p.2 else dictGet r k dflt

/-- `d.get(k)` on a Python dict: `none` when the key is absent. -/
def dictLookup {α : Type} (m : List (String × α)) (k : String) : Option α :=
  match m with
  | [] => none
  | p :: r => if p.1 = k then some p.2 else dictLookup r k

/-- `d[k] = v` on a Python dict: overwrite in place if present, else append. -/
def dictSet {α : Type} (m : List (String × α)) (k : String) (v : α) :
    List (String × α) :=
  match m with
  | [] => [(k, v)]
  | p :: r => if p.1 = k then (k, v) :: r else p :: dictSet r k v

/-! ## Topological sorter (`src/core/topological.py`)

`topological_sort(flow_graph, all_nodes)` takes the control-flow adjacency
dict and the vertex set.  We model `flow_graph` as an association list and
`all_nodes` as the list of vertices in the set's iteration order. -/

/-- `flow_graph.get(v, [])`: successor list of `v`. -/
def succs (g : List (String × List String)) (v : String) : List String :=
  dictGet g v []

/-- The edge relation of a control-flow graph: `edge g u v` holds when `v`
occurs in `u`'s successor list. -/
def edge (g : List (String × List String)) (u v : String) : Prop :=
  v ∈ succs g u

/-- A graph contains a cycle when some vertex reaches itself by a nonempty
edge path. -/
def hasCycleSpec (g : List (String × List String)) : Prop :=
  ∃ v, Relation.TransGen (edge g) v v

/-- Step 1 inner loop of `topological_sort`: `for child in children:
in_degree[child] += 1`.  Raises `KeyError(child)` when `child` is not a key
of `in_degree` (i.e. not in `all_nodes`). -/
def bumpChildren (nodes : List String) (d : String → Int) :
    List String → Except PyError (String → Int)
  | [] => .ok d
  | c :: cs =>
      if c ∈ nodes then
        bumpChildren nodes (fun w => if w = c then d w + 1 else d w) cs
      else .error (.keyError c)

/-- Step 1 outer loop of `topological_sort`: accumulate in-degrees over the
successor lists of every vertex. -/
def initInDegree (g : List (String × List String)) (nodes : List String)
    (d : String → Int) : List String → Except PyError (String → Int)
  | [] => .ok d
  | v :: vs =>
      match bumpChildren nodes d (succs g v) with
      | .error e => .error e
      | .ok d' => initInDegree g nodes d' vs

/-- Step 3 inner loop: decrement the in-degree of each child of the dequeued
vertex, collecting (in order) the children whose in-degree reaches zero. -/
def processChildren (d : String → Int) :
    List String → ((String → Int) × List String)
  | [] => (d, [])
  | c :: cs =>
      let d1 : String → Int := fun w => if w = c then d w - 1 else d w
      let r := processChildren d1 cs
      if d1 c = 0 then (r.1, c :: r.2) else (r.1, r.2)

/-- Step 3 while-loop of `topological_sort`, with explicit fuel (the Python
loop terminates because every vertex is enqueued at most once; the callers
below always supply sufficient fuel, which the proofs establish).  Returns
(sorted_order, remaining queue, final in-degree map). -/
def kahnLoop (g : List (String × List String)) :
    Nat → List String → (String → Int) → List String →
    (List String × List String × (String → Int))
  | 0, q, d, order => (order, q, d)
  | _ + 1, [], d, order => (order, [], d)
  | fuel + 1, v :: q, d, order =>
      kahnLoop g fuel (q ++ (processChildren d (succs g v)).2)
        (processChildren d (succs g v)).1 (order ++ [v])

/-- `topological_sort(flow_graph, all_nodes)` from `src/core/topological.py`:
compute in-degrees, seed the queue with zero-in-degree vertices, run Kahn's
loop, and raise `ValueError` when the emitted order is shorter than the
vertex count. -/
def topological_sort (g : List (String × List String)) (nodes : List String) :
    Except PyError (List String) :=
  match initInDegree g nodes (fun _ => 0) nodes with
  | .error e => .error e
  | .ok d =>
      let queue := nodes.filter (fun v => d v == 0)
      let r := kahnLoop g nodes.length queue d []
      if r.1.length = nodes.length then .ok r.1
      else .error (.valueError "Cycle detected in FLOW graph.")

example :
    topological_sort [("a", ["b"]), ("b", ["c"]), ("c", [])] ["a", "b", "c"] =
      .ok ["a", "b", "c"] := rfl

example :
    topological_sort [("a", ["b"]), ("b", ["a"])] ["a", "b"] =
      .error (.valueError "Cycle detected in FLOW graph.") := rfl

example :
    topological_sort [("a", ["b"]), ("b", [])] ["b", "a"] =
      .ok ["a", "b"] := rfl

/-! ### Correctness of the sorter

`remIndeg g out nodes v` is the number of edges into `v` whose source lies in
`nodes` but not in `out` (the list of already-emitted vertices); it is the
value the Python `in_degree[v]` holds after the sources in `out` have been
processed. -/

/-- In-degree of `v` restricted to edge sources in `ns` that are not in
`out`. -/
def remIndeg (g : List (String × List String)) (out : List String) :
    List String → String → Int
  | [], _ => 0
  | u :: us, v =>
      (if u ∈ out then 0 else ((succs g u).count v : Int)) + remIndeg g out us v

lemma remIndeg_nonneg (g : List (String × List String)) (out ns : List String)
    (v : String) : 0 ≤ remIndeg g out ns v := by
  induction ns with
  | nil => simp [remIndeg]
  | cons u us ih =>
      simp only [remIndeg]
      have h1 : (0 : Int) ≤ if u ∈ out then 0 else ((succs g u).count v : Int) := by
        split <;> positivity
      omega

lemma remIndeg_congr (g : List (String × List String)) (out out' ns : List String)
    (v : String) (h : ∀ u ∈ ns, u ∈ out ↔ u ∈ out') :
    remIndeg g out ns v = remIndeg g out' ns v := by
  induction ns with
  | nil => rfl
  | cons u us ih =>
      simp only [remIndeg]
      rw [ih (fun u hu => h u (List.mem_cons_of_mem _ hu))]
      have hu := h u (List.mem_cons_self _ _)
      by_cases hmem : u ∈ out
      · rw [if_pos hmem, if_pos (hu.mp hmem)]
      · rw [if_neg hmem, if_neg (fun hc => hmem (hu.mpr hc))]

lemma remIndeg_term_le (g : List (String × List String)) (out ns : List String)
    (u v : String) (hu : u ∈ ns) (hout : u ∉ out) :
    ((succs g u).count v : Int) ≤ remIndeg g out ns v := by
  induction ns with
  | nil => simp at hu
  | cons w ws ih =>
      simp only [remIndeg]
      rcases List.mem_cons.mp hu with h | h
      · subst h
        rw [if_neg hout]
        have := remIndeg_nonneg g out ws v
        omega
      · have h1 : (0 : Int) ≤ if w ∈ out then 0 else ((succs g w).count v : Int) := by
          split <;> positivity
        have := ih h
        omega

lemma remIndeg_eq_zero_iff (g : List (String × List String))
    (out ns : List String) (v : String) :
    remIndeg g out ns v = 0 ↔ ∀ u ∈ ns, u ∉ out → v ∉ succs g u := by
  induction ns with
  | nil => simp [remIndeg]
  | cons w ws ih =>
      simp only [remIndeg]
      constructor
      · intro h u hu hout
        have h1 : (0 : Int) ≤ if w ∈ out then 0 else ((succs g w).count v : Int) := by
          split <;> positivity
        have h2 := remIndeg_nonneg g out ws v
        have hterm : (if w ∈ out then 0 else ((succs g w).count v : Int)) = 0 := by omega
        have hrest : remIndeg g out ws v = 0 := by omega
        rcases List.mem_cons.mp hu with h | h
        · subst h
          rw [if_neg hout] at hterm
          intro hmem
          have : 0 < (succs g u).count v := List.count_pos_iff.mpr hmem
          omega
        · exact ih.mp hrest u h hout
      · intro h
        have hrest : remIndeg g out ws v = 0 :=
          ih.mpr (fun u hu hout => h u (List.mem_cons_of_mem _ hu) hout)
        rw [hrest]
        by_cases hw : w ∈ out
        · simp [hw]
        · have : v ∉ succs g w := h w (List.mem_cons_self _ _) hw
          have : (succs g w).count v = 0 := List.count_eq_zero.mpr this
          simp [hw, this]

lemma remIndeg_append_out (g : List (String × List String))
    (out ns : List String) (v₀ w : String) (hnd : ns.Nodup)
    (hv : v₀ ∈ ns) (hout : v₀ ∉ out) :
    remIndeg g (out ++ [v₀]) ns w =
      remIndeg g out ns w - ((succs g v₀).count w : Int) := by
  induction ns with
  | nil => simp at hv
  | cons u us ih =>
      have hnd' : us.Nodup := hnd.of_cons
      simp only [remIndeg]
      rcases List.mem_cons.mp hv with h | h
      · subst h
        have husv : v₀ ∉ us := (List.nodup_cons.mp hnd).1
        have htail : remIndeg g (out ++ [v₀]) us w = remIndeg g out us w := by
          apply remIndeg_congr
          intro u hu
          have hne : u ≠ v₀ := fun hc => husv (hc ▸ hu)
          simp [List.mem_append, hne]
        rw [htail, if_pos (by simp), if_neg hout]
        omega
      · have hne : u ≠ v₀ := by
          intro hc
          exact (List.nodup_cons.mp hnd).1 (hc ▸ h)
        have hterm : (u ∈ out ++ [v₀]) ↔ u ∈ out := by simp [List.mem_append, hne]
        rw [ih hnd' h]
        by_cases hu : u ∈ out
        · rw [if_pos hu, if_pos (hterm.mpr hu)]; omega
        · rw [if_neg hu, if_neg (fun hc => hu (hterm.mp hc))]; omega

lemma processChildren_cons (d : String → Int) (c : String) (cs : List String) :
    processChildren d (c :: cs) =
      (if d c - 1 = 0 then
        ((processChildren (fun w => if w = c then d w - 1 else d w) cs).1,
          c :: (processChildren (fun w => if w = c then d w - 1 else d w) cs).2)
      else
        ((processChildren (fun w => if w = c then d w - 1 else d w) cs).1,
          (processChildren (fun w => if w = c then d w - 1 else d w) cs).2)) := by
  simp [processChildren]

lemma processChildren_fst (cs : List String) : ∀ (d : String → Int) (w : String),
    (processChildren d cs).1 w = d w - (cs.count w : Int) := by
  induction cs with
  | nil => intro d w; simp [processChildren]
  | cons c cs ih =>
      intro d w
      rw [processChildren_cons]
      have hfst : (processChildren (fun w => if w = c then d w - 1 else d w) cs).1 w =
          (if w = c then d w - 1 else d w) - (cs.count w : Int) := ih _ w
      have hgoal : (processChildren (fun w => if w = c then d w - 1 else d w) cs).1 w =
          d w - ((c :: cs).count w : Int) := by
        rw [hfst]
        by_cases hw : w = c
        · subst hw
          have hcount : (w :: cs).count w = cs.count w + 1 := by
            simp [List.count_cons]
          rw [hcount]; simp; omega
        · have hbeq : (w == c) = false := by simp [hw]
          have hcount : (c :: cs).count w = cs.count w := by
            simp [List.count_cons, Ne.symm hw]
          rw [hcount, if_neg hw]
      by_cases h : d c - 1 = 0
      · rw [if_pos h]; exact hgoal
      · rw [if_neg h]; exact hgoal

lemma processChildren_mem (cs : List String) : ∀ (d : String → Int) (w : String),
    w ∈ (processChildren d cs).2 ↔ 1 ≤ d w ∧ d w ≤ (cs.count w : Int) := by
  induction cs with
  | nil =>
      intro d w
      simp only [processChildren, List.count_nil, Nat.cast_zero, List.not_mem_nil,
        false_iff, not_and]
      omega
  | cons c cs ih =>
      intro d w
      rw [processChildren_cons]
      have hmem : w ∈ (processChildren (fun w => if w = c then d w - 1 else d w) cs).2 ↔
          1 ≤ (if w = c then d w - 1 else d w) ∧
            (if w = c then d w - 1 else d w) ≤ (cs.count w : Int) := ih _ w
      by_cases hw : w = c
      · subst hw
        rw [if_pos rfl] at hmem
        have hcount : (w :: cs).count w = cs.count w + 1 := by simp [List.count_cons]
        by_cases h : d w - 1 = 0
        · rw [if_pos h]
          dsimp only
          rw [List.mem_cons, hmem, hcount]
          push_cast
          constructor
          · intro _; omega
          · intro _; left; rfl
        · rw [if_neg h]
          dsimp only
          rw [hmem, hcount]
          push_cast
          omega
      · have hbeq : (w == c) = false := by simp [hw]
        have hcount : (c :: cs).count w = cs.count w := by
          simp [List.count_cons, Ne.symm hw]
        rw [if_neg hw] at hmem
        by_cases h : d c - 1 = 0
        · rw [if_pos h]
          dsimp only
          rw [List.mem_cons, hmem, hcount]
          simp [hw]
        · rw [if_neg h]
          dsimp only
          rw [hmem, hcount]

lemma processChildren_nodup (cs : List String) : ∀ (d : String → Int),
    (processChildren d cs).2.Nodup := by
  induction cs with
  | nil => intro d; simp [processChildren]
  | cons c cs ih =>
      intro d
      rw [processChildren_cons]
      by_cases h : d c - 1 = 0
      · rw [if_pos h]
        dsimp only
        refine List.nodup_cons.mpr ⟨?_, ih _⟩
        intro hc
        have hmem := (processChildren_mem cs (fun w => if w = c then d w - 1 else d w) c).mp hc
        simp only [eq_self_iff_true, if_true] at hmem
        omega
      · rw [if_neg h]
        dsimp only
        exact ih _

lemma processChildren_sub (cs : List String) (d : String → Int) (w : String)
    (h : w ∈ (processChildren d cs).2) : w ∈ cs := by
  have := (processChildren_mem cs d w).mp h
  have hpos : 0 < cs.count w := by omega
  exact List.count_pos_iff.mp hpos

lemma bumpChildren_ok (cs : List String) : ∀ (nodes : List String) (d : String → Int),
    (∀ c ∈ cs, c ∈ nodes) →
    ∃ d', bumpChildren nodes d cs = .ok d' ∧
      ∀ w, d' w = d w + (cs.count w : Int) := by
  induction cs with
  | nil => intro nodes d _; exact ⟨d, rfl, by simp⟩
  | cons c cs ih =>
      intro nodes d hsub
      have hc : c ∈ nodes := hsub c (List.mem_cons_self _ _)
      obtain ⟨d', hrun, hval⟩ :=
        ih nodes (fun w => if w = c then d w + 1 else d w)
          (fun x hx => hsub x (List.mem_cons_of_mem _ hx))
      refine ⟨d', ?_, ?_⟩
      · simp only [bumpChildren, if_pos hc]
        exact hrun
      · intro w
        rw [hval w]
        by_cases hw : w = c
        · subst hw
          have : (w == w) = true := by simp
          simp [List.count_cons]
          omega
        · have hbeq : (w == c) = false := by simp [hw]
          simp [List.count_cons, hbeq, hw]

lemma initInDegree_ok (vs : List String) :
    ∀ (g : List (String × List String)) (nodes : List String) (d : String → Int),
    (∀ v ∈ vs, ∀ c ∈ succs g v, c ∈ nodes) →
    ∃ d', initInDegree g nodes d vs = .ok d' ∧
      ∀ w, d' w = d w + remIndeg g [] vs w := by
  induction vs with
  | nil => intro g nodes d _; exact ⟨d, rfl, by simp [remIndeg]⟩
  | cons v vs ih =>
      intro g nodes d hsub
      obtain ⟨d1, hrun1, hval1⟩ :=
        bumpChildren_ok (succs g v) nodes d (hsub v (List.mem_cons_self _ _))
      obtain ⟨d', hrun, hval⟩ :=
        ih g nodes d1 (fun x hx => hsub x (List.mem_cons_of_mem _ hx))
      refine ⟨d', ?_, ?_⟩
      · simp only [initInDegree, hrun1]
        exact hrun
      · intro w
        rw [hval w, hval1 w]
        simp only [remIndeg, List.not_mem_nil, ite_false]
        omega

/-- Loop invariant of Kahn's algorithm: `out` is the order emitted so far,
`q` the pending queue, `d` the current in-degree map. -/
structure KahnInv (g : List (String × List String)) (nodes q : List String)
    (d : String → Int) (out : List String) : Prop where
  nodup : (out ++ q).Nodup
  outSub : ∀ v ∈ out, v ∈ nodes
  qSub : ∀ v ∈ q, v ∈ nodes
  deg : ∀ v, d v = remIndeg g out nodes v
  zeroMem : ∀ v ∈ nodes, (d v = 0 ↔ v ∈ out ∨ v ∈ q)
  ordered : ∀ u v, u ∈ nodes → v ∈ succs g u → v ∈ out → List.Sublist [u, v] out

lemma KahnInv.step {g : List (String × List String)} {nodes : List String}
    {v : String} {q : List String} {d : String → Int} {out : List String}
    (H : ∀ u ∈ nodes, ∀ c ∈ succs g u, c ∈ nodes) (hnd : nodes.Nodup)
    (inv : KahnInv g nodes (v :: q) d out) :
    KahnInv g nodes (q ++ (processChildren d (succs g v)).2)
      (processChildren d (succs g v)).1 (out ++ [v]) := by
  have hv : v ∈ nodes := inv.qSub v (List.mem_cons_self _ _)
  have hnodup := inv.nodup
  rw [List.nodup_append] at hnodup
  obtain ⟨hod, hvq, hdisj⟩ := hnodup
  have hvout : v ∉ out := fun hc => hdisj hc (List.mem_cons_self _ _)
  have hvq' : v ∉ q := (List.nodup_cons.mp hvq).1
  have hdv : d v = 0 := (inv.zeroMem v hv).mpr (Or.inr (List.mem_cons_self _ _))
  set cs := succs g v with hcs
  set d' := (processChildren d cs).1 with hd'
  set ex := (processChildren d cs).2 with hex
  have childSub : ∀ c ∈ cs, c ∈ nodes := H v hv
  -- the updated in-degree map tracks `remIndeg` for the extended `out`
  have deg' : ∀ w, d' w = remIndeg g (out ++ [v]) nodes w := by
    intro w
    rw [hd', processChildren_fst, inv.deg w,
      remIndeg_append_out g out nodes v w hnd hv hvout]
  -- a vertex already emitted or queued is not a child of `v`
  have keyA : ∀ w, w ∈ out ∨ w ∈ v :: q → w ∉ cs := by
    intro w hw hmem
    have hwn : w ∈ nodes := by
      rcases hw with h | h
      · exact inv.outSub w h
      · exact inv.qSub w h
    have hdw : d w = 0 := (inv.zeroMem w hwn).mpr hw
    have hle := remIndeg_term_le g out nodes v w hv hvout
    rw [← hcs] at hle
    have hpos : 0 < cs.count w := List.count_pos_iff.mpr hmem
    rw [inv.deg w] at hdw
    omega
  -- members of `ex` have positive old in-degree, hence are new
  have exNew : ∀ w ∈ ex, w ∉ out ∧ w ≠ v ∧ w ∉ q := by
    intro w hw
    have hmem := (processChildren_mem cs d w).mp hw
    have hwn : w ∈ nodes := childSub w (processChildren_sub cs d w hw)
    have hne : d w ≠ 0 := by omega
    have : ¬(w ∈ out ∨ w ∈ v :: q) := fun hc => hne ((inv.zeroMem w hwn).mpr hc)
    push_neg at this
    refine ⟨this.1, ?_, ?_⟩
    · intro hc; exact this.2 (hc ▸ List.mem_cons_self _ _)
    · intro hc; exact this.2 (List.mem_cons_of_mem _ hc)
  refine ⟨?_, ?_, ?_, deg', ?_, ?_⟩
  · -- nodup
    have hperm : ((out ++ [v]) ++ (q ++ ex)) = (out ++ v :: q) ++ ex := by
      simp
    rw [hperm, List.nodup_append]
    refine ⟨inv.nodup, processChildren_nodup cs d, ?_⟩
    intro w hw hwex
    rcases List.mem_append.mp hw with h | h
    · exact (exNew w hwex).1 h
    · rcases List.mem_cons.mp h with h | h
      · exact (exNew w hwex).2.1 h
      · exact (exNew w hwex).2.2 h
  · -- outSub
    intro w hw
    rcases List.mem_append.mp hw with h | h
    · exact inv.outSub w h
    · rw [List.mem_singleton.mp h]; exact hv
  · -- qSub
    intro w hw
    rcases List.mem_append.mp hw with h | h
    · exact inv.qSub w (List.mem_cons_of_mem _ h)
    · exact childSub w (processChildren_sub cs d w h)
  · -- zeroMem
    intro w hwn
    by_cases hold : w ∈ out ∨ w ∈ v :: q
    · have hdw : d w = 0 := (inv.zeroMem w hwn).mpr hold
      have hnot : w ∉ cs := keyA w hold
      have hcount : cs.count w = 0 := List.count_eq_zero.mpr hnot
      have hdw' : d' w = 0 := by
        rw [hd', processChildren_fst, hcount]; omega
      rw [hdw']
      simp only [true_iff]
      rcases hold with h | h
      · exact Or.inl (List.mem_append.mpr (Or.inl h))
      · rcases List.mem_cons.mp h with h | h
        · exact Or.inl (List.mem_append.mpr (Or.inr (by simp [h])))
        · exact Or.inr (List.mem_append.mpr (Or.inl h))
    · push_neg at hold
      obtain ⟨hwo, hwvq⟩ := hold
      have hwv : w ≠ v := fun hc => hwvq (hc ▸ List.mem_cons_self _ _)
      have hwq : w ∉ q := fun hc => hwvq (List.mem_cons_of_mem _ hc)
      have hdwne : d w ≠ 0 :=
        fun hc => (by exact hwo ((inv.zeroMem w hwn).mp hc |>.elim id
          (fun h => absurd h hwvq)) : False)
      have hnn : 0 ≤ d w := by rw [inv.deg w]; exact remIndeg_nonneg g out nodes w
      have hge1 : 1 ≤ d w := by omega
      have hub : (cs.count w : Int) ≤ d w := by
        rw [inv.deg w]; exact remIndeg_term_le g out nodes v w hv hvout
      have hdw' : d' w = d w - (cs.count w : Int) := by
        rw [hd', processChildren_fst]
      constructor
      · intro h0
        right
        refine List.mem_append.mpr (Or.inr ?_)
        rw [hex, processChildren_mem]
        omega
      · intro hm
        rcases hm with h | h
        · rcases List.mem_append.mp h with h | h
          · exact absurd h hwo
          · exact absurd (List.mem_singleton.mp h) hwv
        · rcases List.mem_append.mp h with h | h
          · exact absurd h hwq
          · rw [hex, processChildren_mem] at h
            omega
  · -- ordered
    intro u w hun hws hwo
    rcases List.mem_append.mp hwo with h | h
    · exact (inv.ordered u w hun hws h).trans (List.sublist_append_left out [v])
    · have hwv : w = v := List.mem_singleton.mp h
      subst hwv
      have hz : remIndeg g out nodes w = 0 := by rw [← inv.deg w]; exact hdv
      have hall := (remIndeg_eq_zero_iff g out nodes w).mp hz
      have huo : u ∈ out := by
        by_contra huo
        exact hall u hun huo hws
      have h1 : List.Sublist [u] out := List.singleton_sublist.mpr huo
      have h2 : List.Sublist [w] [w] := List.Sublist.refl _
      simpa using List.Sublist.append h1 h2

lemma kahnLoop_run {g : List (String × List String)} {nodes : List String}
    (H : ∀ u ∈ nodes, ∀ c ∈ succs g u, c ∈ nodes) (hnd : nodes.Nodup) :
    ∀ (fuel : Nat) (q : List String) (d : String → Int) (out : List String),
    KahnInv g nodes q d out → nodes.length ≤ fuel + out.length →
    ∃ order d', kahnLoop g fuel q d out = (order, [], d') ∧
      KahnInv g nodes [] d' order := by
  intro fuel
  induction fuel with
  | zero =>
      intro q d out inv hfuel
      have hq : q = [] := by
        cases q with
        | nil => rfl
        | cons w q' =>
            exfalso
            have hnodup := inv.nodup
            rw [List.nodup_append] at hnodup
            obtain ⟨hod, _, hdisj⟩ := hnodup
            have hsub : out.Subperm nodes := List.subperm_of_subset hod inv.outSub
            have hperm : out.Perm nodes :=
              hsub.perm_of_length_le (by simpa using hfuel)
            have hw : w ∈ out := (hperm.mem_iff).mpr (inv.qSub w (List.mem_cons_self _ _))
            exact hdisj hw (List.mem_cons_self _ _)
      subst hq
      exact ⟨out, d, rfl, inv⟩
  | succ fuel ih =>
      intro q d out inv hfuel
      cases q with
      | nil => exact ⟨out, d, rfl, inv⟩
      | cons v q' =>
          have inv' := inv.step H hnd
          have hfuel' : nodes.length ≤ fuel + (out ++ [v]).length := by
            simp only [List.length_append, List.length_singleton]
            omega
          obtain ⟨order, d', hrun, hinv⟩ := ih _ _ _ inv' hfuel'
          exact ⟨order, d', hrun, hinv⟩

/-- Running `topological_sort` under the well-formedness conditions that hold
for graphs produced by the `GraphBuilder` (vertex list without duplicates,
every successor a vertex): the sorter reaches Kahn's loop and the final state
satisfies the invariant with an empty queue. -/
lemma topological_sort_run {g : List (String × List String)}
    {nodes : List String} (hnd : nodes.Nodup)
    (H : ∀ u ∈ nodes, ∀ c ∈ succs g u, c ∈ nodes) :
    ∃ order d', KahnInv g nodes [] d' order ∧
      topological_sort g nodes =
        (if order.length = nodes.length then .ok order
         else .error (.valueError "Cycle detected in FLOW graph.")) := by
  obtain ⟨d₀, hinit, hval⟩ :=
    initInDegree_ok nodes g nodes (fun _ => 0) (fun v hv => H v hv)
  have hdeg0 : ∀ w, d₀ w = remIndeg g [] nodes w := by
    intro w
    rw [hval w]
    omega
  set queue := nodes.filter (fun v => d₀ v == 0) with hqueue
  have inv0 : KahnInv g nodes queue d₀ [] := by
    refine ⟨?_, ?_, ?_, hdeg0, ?_, ?_⟩
    · simpa using hnd.filter _
    · intro v hv; simp at hv
    · intro v hv
      exact (List.mem_filter.mp hv).1
    · intro v hvn
      rw [hqueue]
      simp only [List.not_mem_nil, false_or, List.mem_filter, beq_iff_eq]
      constructor
      · intro h; exact ⟨hvn, h⟩
      · intro h; exact h.2
    · intro u v _ _ hv
      simp at hv
  obtain ⟨order, d', hrun, hinv⟩ :=
    kahnLoop_run H hnd nodes.length queue d₀ [] inv0 (by simp)
  refine ⟨order, d', hinv, ?_⟩
  simp only [topological_sort, hinit, hrun]

lemma sublist_pair_trans {l : List String} (hnd : l.Nodup) :
    ∀ {a b c : String}, List.Sublist [a, b] l → List.Sublist [b, c] l →
      List.Sublist [a, c] l := by
  induction l with
  | nil => intro a b c h1 _; cases h1
  | cons x t ih =>
      intro a b c h1 h2
      have hnd' : t.Nodup := hnd.of_cons
      have hxt : x ∉ t := (List.nodup_cons.mp hnd).1
      cases h1 with
      | cons _ h1' =>
          have hbt : b ∈ t := List.singleton_sublist.mp
            ((List.sublist_cons_of_sublist a (List.Sublist.refl [b])).trans h1')
          cases h2 with
          | cons _ h2' => exact (ih hnd' h1' h2').cons _
          | cons₂ _ h2' => exact absurd hbt hxt
      | cons₂ _ h1' =>
          have hbt : b ∈ t := List.singleton_sublist.mp h1'
          cases h2 with
          | cons _ h2' =>
              have hct : List.Sublist [c] t :=
                (List.sublist_cons_of_sublist b (List.Sublist.refl [c])).trans h2'
              exact hct.cons₂ _
          | cons₂ _ h2' => exact absurd hbt hxt

lemma sublist_pair_irrefl {l : List String} (hnd : l.Nodup) (a : String) :
    ¬ List.Sublist [a, a] l := by
  intro h
  have : ([a, a] : List String).Nodup := h.nodup hnd
  simp at this

lemma transGen_sublist {l : List String} {r : String → String → Prop}
    (hnd : l.Nodup) (hstep : ∀ u v, r u v → List.Sublist [u, v] l) :
    ∀ {u v : String}, Relation.TransGen r u v → List.Sublist [u, v] l := by
  intro u v h
  induction h with
  | single h => exact hstep _ _ h
  | tail _ hlast ih => exact sublist_pair_trans hnd ih (hstep _ _ hlast)

/-- A nonempty set of vertices each of which has a predecessor inside the set
yields a cycle. -/
lemma cycle_of_closed (g : List (String × List String)) (S : List String)
    (hne : S ≠ [])
    (hclosed : ∀ v ∈ S, ∃ u, u ∈ S ∧ v ∈ succs g u) :
    hasCycleSpec g := by
  obtain ⟨v₀, hv₀⟩ := List.exists_mem_of_ne_nil S hne
  choose pick hmem hsucc using hclosed
  let f : ℕ → {x : String // x ∈ S} := fun n =>
    Nat.rec ⟨v₀, hv₀⟩ (fun _ p => ⟨pick p.1 p.2, hmem p.1 p.2⟩) n
  have hstep : ∀ n, edge g (f (n + 1)).1 (f n).1 := by
    intro n
    exact hsucc (f n).1 (f n).2
  have hchain : ∀ (i m : ℕ), Relation.TransGen (edge g) (f (i + m + 1)).1 (f i).1 := by
    intro i m
    induction m with
    | zero => exact Relation.TransGen.single (hstep i)
    | succ m ih =>
        have h1 : edge g (f (i + m + 2)).1 (f (i + m + 1)).1 := hstep (i + m + 1)
        have h2 : Relation.TransGen (edge g) (f (i + m + 1)).1 (f i).1 := ih
        exact Relation.TransGen.head h1 h2
  -- pigeonhole: among S.length + 1 values of f some two coincide
  have hmaps : ∀ n ∈ Finset.range (S.length + 1), (f n).1 ∈ S.toFinset := by
    intro n _
    exact List.mem_toFinset.mpr (f n).2
  have hcard : S.toFinset.card < (Finset.range (S.length + 1)).card := by
    rw [Finset.card_range]
    exact Nat.lt_succ_of_le S.toFinset_card_le
  obtain ⟨i, hi, j, hj, hij, hfeq⟩ :=
    Finset.exists_ne_map_eq_of_card_lt_of_maps_to hcard hmaps
  rcases Nat.lt_or_ge i j with hlt | hge
  · refine ⟨(f j).1, ?_⟩
    have : Relation.TransGen (edge g) (f (i + (j - i - 1) + 1)).1 (f i).1 :=
      hchain i (j - i - 1)
    have hidx : i + (j - i - 1) + 1 = j := by omega
    rw [hidx] at this
    rw [← hfeq] at this
    rw [hfeq] at this
    exact hfeq ▸ this
  · have hlt' : j < i := by omega
    refine ⟨(f i).1, ?_⟩
    have : Relation.TransGen (edge g) (f (j + (i - j - 1) + 1)).1 (f j).1 :=
      hchain j (i - j - 1)
    have hidx : j + (i - j - 1) + 1 = i := by omega
    rw [hidx] at this
    exact hfeq ▸ this

lemma succs_mem_key {g : List (String × List String)} {u v : String}
    (h : v ∈ succs g u) : ∃ p ∈ g, p.1 = u := by
  induction g with
  | nil => simp [succs, dictGet] at h
  | cons p r ih =>
      by_cases hp : p.1 = u
      · exact ⟨p, List.mem_cons_self _ _, hp⟩
      · have h' : v ∈ succs r u := by
          simpa [succs, dictGet, if_neg hp] using h
        obtain ⟨q, hq, hqe⟩ := ih h'
        exact ⟨q, List.mem_cons_of_mem _ hq, hqe⟩

lemma sort_missing_gives_cycle {g : List (String × List String)}
    {nodes order : List String} {d' : String → Int}
    (hinv : KahnInv g nodes [] d' order)
    (hmiss : ∃ v ∈ nodes, v ∉ order) : hasCycleSpec g := by
  classical
  set S : List String := nodes.filter (fun v => decide (v ∉ order)) with hS
  have hSmem : ∀ v, v ∈ S ↔ v ∈ nodes ∧ v ∉ order := by
    intro v
    rw [hS, List.mem_filter]
    simp
  obtain ⟨v₀, hv₀n, hv₀o⟩ := hmiss
  have hne : S ≠ [] := by
    intro hc
    have : v₀ ∈ S := (hSmem v₀).mpr ⟨hv₀n, hv₀o⟩
    rw [hc] at this
    simp at this
  refine cycle_of_closed g S hne ?_
  intro v hv
  obtain ⟨hvn, hvo⟩ := (hSmem v).mp hv
  have hdne : d' v ≠ 0 := by
    intro hc
    rcases (hinv.zeroMem v hvn).mp hc with h | h
    · exact hvo h
    · simp at h
  have hnn : 0 ≤ d' v := by
    rw [hinv.deg v]; exact remIndeg_nonneg g order nodes v
  have hpos : remIndeg g order nodes v ≠ 0 := by
    rw [← hinv.deg v]; exact hdne
  have hnz := hpos
  rw [Ne, remIndeg_eq_zero_iff] at hnz
  push_neg at hnz
  obtain ⟨u, hun, huo, husucc⟩ := hnz
  exact ⟨u, (hSmem u).mpr ⟨hun, huo⟩, husucc⟩

/-- C1: For every control-flow graph (mapping of vertex to successor list over
a finite vertex set) that is acyclic, `topological_sort` returns a list that
is a permutation of the full vertex set in which, for every edge (u,v) of the
graph, u appears before v. -/
theorem topological_sort_acyclic_correct
    (g : List (String × List String)) (nodes : List String)
    (hnd : nodes.Nodup)
    (hkeys : ∀ p ∈ g, p.1 ∈ nodes)
    (hclosed : ∀ u ∈ nodes, ∀ c ∈ succs g u, c ∈ nodes)
    (hacyc : ¬ hasCycleSpec g) :
    ∃ order, topological_sort g nodes = .ok order ∧
      order.Perm nodes ∧
      ∀ u v, edge g u v → List.Sublist [u, v] order := by
  obtain ⟨order, d', hinv, hsortEq⟩ := topological_sort_run hnd hclosed
  have hordNodup : order.Nodup := by simpa using hinv.nodup
  have hcomplete : ∀ v ∈ nodes, v ∈ order := by
    intro v hvn
    by_contra hvo
    exact hacyc (sort_missing_gives_cycle hinv ⟨v, hvn, hvo⟩)
  have hperm : order.Perm nodes :=
    (List.subperm_of_subset hordNodup hinv.outSub).antisymm
      (List.subperm_of_subset hnd hcomplete)
  have hlen : order.length = nodes.length := hperm.length_eq
  rw [if_pos hlen] at hsortEq
  refine ⟨order, hsortEq, hperm, ?_⟩
  intro u v he
  obtain ⟨p, hp, hpe⟩ := succs_mem_key he
  have hu : u ∈ nodes := hpe ▸ hkeys p hp
  have hv : v ∈ nodes := hclosed u hu v he
  exact hinv.ordered u v hu he (hcomplete v hv)

/-- C1 witness: the concrete acyclic graph a→b over vertices {a, b}. -/
theorem topological_sort_acyclic_correct_witness :
    ∃ order, topological_sort [("a", ["b"]), ("b", [])] ["a", "b"] = .ok order ∧
      order.Perm ["a", "b"] ∧
      ∀ u v, edge [("a", ["b"]), ("b", [])] u v → List.Sublist [u, v] order := by
  apply topological_sort_acyclic_correct
  · decide
  · decide
  · intro u hu c hc
    fin_cases hu <;> simp_all [succs, dictGet]
  · rintro ⟨v, hv⟩
    have hreach : ∀ x y : String,
        Relation.TransGen (edge [("a", ["b"]), ("b", [])]) x y →
          x = "a" ∧ y = "b" := by
      intro x y h
      induction h with
      | single h =>
          simp only [edge] at h
          by_cases hx : x = "a"
          · subst hx
            simp [succs, dictGet] at h
            exact ⟨rfl, h⟩
          · by_cases hx2 : x = "b"
            · subst hx2
              simp [succs, dictGet] at h
            · simp [succs, dictGet, Ne.symm hx, Ne.symm hx2] at h
      | tail _ hlast ih =>
          obtain ⟨hx, hb⟩ := ih
          subst hb
          simp [edge, succs, dictGet] at hlast
    obtain ⟨h1, h2⟩ := hreach v v hv
    rw [h1] at h2
    simp at h2

/-- On a well-formed graph containing a cycle, `topological_sort` raises
`ValueError("Cycle detected in FLOW graph.")` and returns no order. -/
lemma topological_sort_cyclic_error
    {g : List (String × List String)} {nodes : List String}
    (hnd : nodes.Nodup)
    (hkeys : ∀ p ∈ g, p.1 ∈ nodes)
    (hclosed : ∀ u ∈ nodes, ∀ c ∈ succs g u, c ∈ nodes)
    (hcyc : hasCycleSpec g) :
    topological_sort g nodes =
      .error (.valueError "Cycle detected in FLOW graph.") := by
  obtain ⟨order, d', hinv, hsortEq⟩ := topological_sort_run hnd hclosed
  by_cases hlen : order.length = nodes.length
  · exfalso
    have hordNodup : order.Nodup := by simpa using hinv.nodup
    have hperm : order.Perm nodes :=
      (List.subperm_of_subset hordNodup hinv.outSub).perm_of_length_le
        (le_of_eq hlen.symm)
    obtain ⟨v, hv⟩ := hcyc
    have hstep : ∀ u w, edge g u w → List.Sublist [u, w] order := by
      intro u w he
      obtain ⟨p, hp, hpe⟩ := succs_mem_key he
      have hu : u ∈ nodes := hpe ▸ hkeys p hp
      have hw : w ∈ nodes := hclosed u hu w he
      exact hinv.ordered u w hu he (hperm.mem_iff.mpr hw)
    exact sublist_pair_irrefl hordNodup v (transGen_sublist hordNodup hstep hv)
  · rw [if_neg hlen] at hsortEq
    exact hsortEq

/-! ## Graph builder (`src/core/graph_builder.py`)

A layout description is a record of `nodes` (instance id → node record) and
`connections`.  A node record may carry an `fqnn` key (new format) or
`category`/`function` keys (legacy format); absent keys are `none`.
A connection carries a source port type and the endpoint instance ids, with
`source_node_id`/`target_node_id` possibly replaced by the legacy aliases
`source_node_key`/`target_node_key`. -/

/-- One entry of the layout's `nodes` dict. -/
structure NodeRec where
  fqnn : Option String
  category : Option String
  function : Option String
deriving DecidableEq

/-- One entry of the layout's `connections` list. -/
structure Connection where
  source_port_type : String
  source_node_id : Option String
  source_node_key : Option String
  target_node_id : Option String
  target_node_key : Option String
deriving DecidableEq

/-- A layout description. -/
structure Layout where
  nodes : List (String × NodeRec)
  connections : List Connection

/-- Python's `x or y` on optional strings (an absent key and the empty
string are both falsy). -/
def pyOr (a b : Option String) : Option String :=
  match a with
  | some s => if s = "" then b else some s
  | none => b

/-- `conn.get('source_node_id') or conn.get('source_node_key')`.  A fully
absent reference is modelled by the stand-in key "None" (Python would index
the graph dict with `None`, which is likewise never a vertex). -/
def sourceRef (c : Connection) : String :=
  (pyOr c.source_node_id c.source_node_key).getD "None"

/-- `conn.get('target_node_id') or conn.get('target_node_key')`. -/
def targetRef (c : Connection) : String :=
  (pyOr c.target_node_id c.target_node_key).getD "None"

/-- `{node: [] for node in all_nodes}`. -/
def emptyAdj {α : Type} (nodes : List String) : List (String × List α) :=
  nodes.map (fun v => (v, []))

/-- `adj[k].append(x)`: append `x` to the entry of `k`, raising
`KeyError(k)` when `k` is not a key. -/
def adjAppend {α : Type} (g : List (String × List α)) (k : String) (x : α) :
    Except PyError (List (String × List α)) :=
  match g with
  | [] => .error (.keyError k)
  | p :: r =>
      if p.1 = k then .ok ((p.1, p.2 ++ [x]) :: r)
      else
        match adjAppend r k x with
        | .error e => .error e
        | .ok r' => .ok (p :: r')

/-- `GraphBuilder._build_flow_graph`: fold the FLOW connections into the
adjacency dict seeded with empty successor lists.  The entry of the source
id is extended (`KeyError` when the source id is not a vertex); the target
id is appended unchecked. -/
def buildFlowGraph : List Connection → List (String × List String) →
    Except PyError (List (String × List String))
  | [], g => .ok g
  | c :: cs, g =>
      if c.source_port_type = "FLOW" then
        match adjAppend g (sourceRef c) (targetRef c) with
        | .error e => .error e
        | .ok g' => buildFlowGraph cs g'
      else buildFlowGraph cs g

/-- `GraphBuilder._build_data_graph`: fold the DATA connections, appending
`(source id, 'output_data')` to the entry of the **target** id (`KeyError`
when the target id is not a vertex); the source id is appended unchecked. -/
def buildDataGraph : List Connection → List (String × List (String × String)) →
    Except PyError (List (String × List (String × String)))
  | [], g => .ok g
  | c :: cs, g =>
      if c.source_port_type = "DATA" then
        match adjAppend g (targetRef c) (sourceRef c, "output_data") with
        | .error e => .error e
        | .ok g' => buildDataGraph cs g'
      else buildDataGraph cs g

/-- The registry metadata record (`NodeMetadata` in
`src/core/node_registry.py`); a present record is always truthy. -/
structure NodeMetadata where
  fqnn : String
  category : String
  function_name : String
  file_path : String
  docstring : Option String
  lineno : Nat
  end_lineno : Nat
  signature : String
deriving DecidableEq

/-- The fully-qualified type name of a layout node record, as computed by
`GraphBuilder._validate`: the `fqnn` key when present, otherwise
`f"{category}.{function}"` (raising `KeyError` when a legacy key is
absent). -/
def resolveFqnn (r : NodeRec) : Except PyError String :=
  match r.fqnn with
  | some f => .ok f
  | none =>
      match r.category with
      | none => .error (.keyError "category")
      | some cat =>
          match r.function with
          | none => .error (.keyError "function")
          | some fn => .ok (cat ++ "." ++ fn)

/-- `GraphBuilder._validate`: check, for each vertex in order, that its
record exists and that its resolved fully-qualified name is registered
(`registry.get_metadata(fqnn)` truthy). -/
def validate (nodes_dict : List (String × NodeRec))
    (registry : List (String × NodeMetadata)) :
    List String → Except PyError Unit
  | [] => .ok ()
  | k :: ks =>
      match dictLookup nodes_dict k with
      | none =>
          .error (.valueError ("Node data for key '" ++ k ++ "' not found in layout."))
      | some nd =>
          match resolveFqnn nd with
          | .error e => .error e
          | .ok fq =>
              if (dictLookup registry fq).isSome then
                validate nodes_dict registry ks
              else .error (.valueError ("Node '" ++ fq ++ "' not found in registry."))

/-- The graphs held by a `GraphBuilder` after a successful `build()`. -/
structure GB where
  all_nodes : List String
  flow_graph : List (String × List String)
  data_graph : List (String × List (String × String))
deriving DecidableEq

/-- `GraphBuilder.build`: extract the vertex set, build the flow and data
graphs, and validate every instance against the registry. -/
def GraphBuilder.build (layout : Layout)
    (registry : List (String × NodeMetadata)) : Except PyError GB :=
  let all_nodes := layout.nodes.map Prod.fst
  match buildFlowGraph layout.connections (emptyAdj all_nodes) with
  | .error e => .error e
  | .ok fg =>
      match buildDataGraph layout.connections (emptyAdj all_nodes) with
      | .error e => .error e
      | .ok dg =>
          match validate layout.nodes registry all_nodes with
          | .error e => .error e
          | .ok _ => .ok ⟨all_nodes, fg, dg⟩

/-- `GraphBuilder.has_cycle`: run the sorter and catch exactly
`ValueError`; any other exception propagates. -/
def GraphBuilder.has_cycle (gb : GB) : Except PyError Bool :=
  match topological_sort gb.flow_graph gb.all_nodes with
  | .ok _ => .ok false
  | .error (.valueError _) => .ok true
  | .error e => .error e

lemma dictGet_emptyAdj {α : Type} (nodes : List String) (v : String) :
    dictGet (emptyAdj (α := α) nodes) v [] = [] := by
  induction nodes with
  | nil => rfl
  | cons u us ih =>
      simp only [emptyAdj, List.map_cons, dictGet]
      split
      · rfl
      · exact ih

lemma emptyAdj_keys {α : Type} (nodes : List String) :
    (emptyAdj (α := α) nodes).map Prod.fst = nodes := by
  simp [emptyAdj, List.map_map, Function.comp_def]

lemma adjAppend_ok {α : Type} (g : List (String × List α)) (k : String) (x : α)
    (hk : k ∈ g.map Prod.fst) :
    ∃ g', adjAppend g k x = .ok g' ∧
      g'.map Prod.fst = g.map Prod.fst ∧
      ∀ v, dictGet g' v [] =
        if v = k then dictGet g k [] ++ [x] else dictGet g v [] := by
  induction g with
  | nil => simp at hk
  | cons p r ih =>
      by_cases hp : p.1 = k
      · refine ⟨(p.1, p.2 ++ [x]) :: r, ?_, by simp, ?_⟩
        · simp only [adjAppend, if_pos hp]
        · intro v
          by_cases hv : v = k
          · subst hv
            simp [dictGet, hp]
          · have hpv : p.1 ≠ v := by rw [hp]; exact fun hc => hv hc.symm
            simp [dictGet, hpv, hv]
      · have hk2 : k = p.1 ∨ k ∈ r.map Prod.fst := by
          rw [List.map_cons] at hk
          exact List.mem_cons.mp hk
        have hk' : k ∈ r.map Prod.fst := by
          rcases hk2 with h | h
          · exact absurd h.symm hp
          · exact h
        obtain ⟨r', hrun, hkeys, hval⟩ := ih hk'
        refine ⟨p :: r', ?_, by simp [hkeys], ?_⟩
        · simp only [adjAppend, if_neg hp, hrun]
        · intro v
          by_cases hv : v = k
          · subst hv
            simp [dictGet, hp, hval v]
          · by_cases hpv : p.1 = v
            · simp [dictGet, hpv, hv]
            · simp [dictGet, hpv, hval v, hv]

lemma adjAppend_err {α : Type} (g : List (String × List α)) (k : String) (x : α)
    (hk : k ∉ g.map Prod.fst) :
    adjAppend g k x = .error (.keyError k) := by
  induction g with
  | nil => rfl
  | cons p r ih =>
      have hp : p.1 ≠ k := fun hc => hk (by simp [hc])
      have hk' : k ∉ r.map Prod.fst := fun hc => hk (by simp [hc])
      simp only [adjAppend, if_neg hp, ih hk']

/-- The FLOW successors contributed to vertex `v` by a connection list, in
order. -/
def flowSuccsOf (v : String) : List Connection → List String
  | [] => []
  | c :: cs =>
      if c.source_port_type = "FLOW" ∧ sourceRef c = v
      then targetRef c :: flowSuccsOf v cs
      else flowSuccsOf v cs

/-- The DATA predecessors contributed to vertex `v` by a connection list, in
order. -/
def dataPredsOf (v : String) : List Connection → List (String × String)
  | [] => []
  | c :: cs =>
      if c.source_port_type = "DATA" ∧ targetRef c = v
      then (sourceRef c, "output_data") :: dataPredsOf v cs
      else dataPredsOf v cs

lemma buildFlowGraph_ok (cs : List Connection) :
    ∀ (g : List (String × List String)),
    (∀ c ∈ cs, c.source_port_type = "FLOW" → sourceRef c ∈ g.map Prod.fst) →
    ∃ fg, buildFlowGraph cs g = .ok fg ∧
      fg.map Prod.fst = g.map Prod.fst ∧
      ∀ v, dictGet fg v [] = dictGet g v [] ++ flowSuccsOf v cs := by
  induction cs with
  | nil => intro g _; exact ⟨g, rfl, rfl, by simp [flowSuccsOf]⟩
  | cons c cs ih =>
      intro g hwf
      by_cases hc : c.source_port_type = "FLOW"
      · have hsrc : sourceRef c ∈ g.map Prod.fst :=
          hwf c (List.mem_cons_self _ _) hc
        obtain ⟨g1, hrun1, hkeys1, hval1⟩ := adjAppend_ok g (sourceRef c) (targetRef c) hsrc
        obtain ⟨fg, hrun, hkeys, hval⟩ := ih g1 (by
          intro c' hc' hflow
          rw [hkeys1]
          exact hwf c' (List.mem_cons_of_mem _ hc') hflow)
        refine ⟨fg, ?_, by rw [hkeys, hkeys1], ?_⟩
        · simp only [buildFlowGraph, if_pos hc, hrun1]
          exact hrun
        · intro v
          rw [hval v, hval1 v]
          by_cases hv : v = sourceRef c
          · subst hv
            rw [if_pos rfl]
            simp [flowSuccsOf, hc]
          · rw [if_neg hv]
            have hcond : ¬(c.source_port_type = "FLOW" ∧ sourceRef c = v) := by
              rintro ⟨_, h⟩; exact hv h.symm
            simp [flowSuccsOf, hcond]
      · obtain ⟨fg, hrun, hkeys, hval⟩ := ih g (by
          intro c' hc' hflow
          exact hwf c' (List.mem_cons_of_mem _ hc') hflow)
        refine ⟨fg, ?_, hkeys, ?_⟩
        · simp only [buildFlowGraph, if_neg hc]
          exact hrun
        · intro v
          rw [hval v]
          have hcond : ¬(c.source_port_type = "FLOW" ∧ sourceRef c = v) := by
            rintro ⟨h, _⟩; exact hc h
          simp [flowSuccsOf, hcond]

lemma buildDataGraph_ok (cs : List Connection) :
    ∀ (g : List (String × List (String × String))),
    (∀ c ∈ cs, c.source_port_type = "DATA" → targetRef c ∈ g.map Prod.fst) →
    ∃ dg, buildDataGraph cs g = .ok dg ∧
      dg.map Prod.fst = g.map Prod.fst ∧
      ∀ v, dictGet dg v [] = dictGet g v [] ++ dataPredsOf v cs := by
  induction cs with
  | nil => intro g _; exact ⟨g, rfl, rfl, by simp [dataPredsOf]⟩
  | cons c cs ih =>
      intro g hwf
      by_cases hc : c.source_port_type = "DATA"
      · have htgt : targetRef c ∈ g.map Prod.fst :=
          hwf c (List.mem_cons_self _ _) hc
        obtain ⟨g1, hrun1, hkeys1, hval1⟩ :=
          adjAppend_ok g (targetRef c) (sourceRef c, "output_data") htgt
        obtain ⟨dg, hrun, hkeys, hval⟩ := ih g1 (by
          intro c' hc' hdata
          rw [hkeys1]
          exact hwf c' (List.mem_cons_of_mem _ hc') hdata)
        refine ⟨dg, ?_, by rw [hkeys, hkeys1], ?_⟩
        · simp only [buildDataGraph, if_pos hc, hrun1]
          exact hrun
        · intro v
          rw [hval v, hval1 v]
          by_cases hv : v = targetRef c
          · subst hv
            rw [if_pos rfl]
            simp [dataPredsOf, hc]
          · rw [if_neg hv]
            have hcond : ¬(c.source_port_type = "DATA" ∧ targetRef c = v) := by
              rintro ⟨_, h⟩; exact hv h.symm
            simp [dataPredsOf, hcond]
      · obtain ⟨dg, hrun, hkeys, hval⟩ := ih g (by
          intro c' hc' hdata
          exact hwf c' (List.mem_cons_of_mem _ hc') hdata)
        refine ⟨dg, ?_, hkeys, ?_⟩
        · simp only [buildDataGraph, if_neg hc]
          exact hrun
        · intro v
          rw [hval v]
          have hcond : ¬(c.source_port_type = "DATA" ∧ targetRef c = v) := by
            rintro ⟨h, _⟩; exact hc h
          simp [dataPredsOf, hcond]

/-- A key resolves and is registered: the validation step for this key
passes. -/
def keyValidates (nodes_dict : List (String × NodeRec))
    (registry : List (String × NodeMetadata)) (k : String) : Prop :=
  ∃ nd fq, dictLookup nodes_dict k = some nd ∧ resolveFqnn nd = .ok fq ∧
    (dictLookup registry fq).isSome

lemma validate_all_ok (nodes_dict : List (String × NodeRec))
    (registry : List (String × NodeMetadata)) :
    ∀ ks : List String, (∀ k ∈ ks, keyValidates nodes_dict registry k) →
      validate nodes_dict registry ks = .ok () := by
  intro ks
  induction ks with
  | nil => intro _; rfl
  | cons k ks ih =>
      intro h
      obtain ⟨nd, fq, hnd, hfq, hreg⟩ := h k (List.mem_cons_self _ _)
      simp only [validate, hnd, hfq, if_pos hreg]
      exact ih (fun k' hk' => h k' (List.mem_cons_of_mem _ hk'))

lemma validate_append_ok (nodes_dict : List (String × NodeRec))
    (registry : List (String × NodeMetadata)) :
    ∀ ks₁ ks₂ : List String, (∀ k ∈ ks₁, keyValidates nodes_dict registry k) →
      validate nodes_dict registry (ks₁ ++ ks₂) =
        validate nodes_dict registry ks₂ := by
  intro ks₁
  induction ks₁ with
  | nil => intro ks₂ _; rfl
  | cons k ks ih =>
      intro ks₂ h
      obtain ⟨nd, fq, hnd, hfq, hreg⟩ := h k (List.mem_cons_self _ _)
      simp only [List.cons_append, validate, hnd, hfq, if_pos hreg]
      exact ih ks₂ (fun k' hk' => h k' (List.mem_cons_of_mem _ hk'))

lemma dictLookup_append_of_not_mem {α : Type} (m₁ m₂ : List (String × α))
    (k : String) (hk : k ∉ m₁.map Prod.fst) :
    dictLookup (m₁ ++ m₂) k = dictLookup m₂ k := by
  induction m₁ with
  | nil => rfl
  | cons p r ih =>
      have hp : p.1 ≠ k := fun hc => hk (by simp [hc])
      have hk' : k ∉ r.map Prod.fst := fun hc => hk (by simp [hc])
      simp only [List.cons_append, dictLookup, if_neg hp]
      exact ih hk'

lemma dictLookup_mem_keys {α : Type} (m : List (String × α)) (k : String)
    (hk : k ∈ m.map Prod.fst) :
    ∃ v, dictLookup m k = some v ∧ (k, v) ∈ m := by
  induction m with
  | nil => simp at hk
  | cons p r ih =>
      by_cases hp : p.1 = k
      · refine ⟨p.2, ?_, ?_⟩
        · simp only [dictLookup, if_pos hp]
        · have hpe : (k, p.2) = p := by
            rw [← hp]
          rw [hpe]
          exact List.mem_cons_self _ _
      · have hk' : k ∈ r.map Prod.fst := by
          rw [List.map_cons] at hk
          rcases List.mem_cons.mp hk with h | h
          · exact absurd h.symm hp
          · exact h
        obtain ⟨v, hv, hmem⟩ := ih hk'
        refine ⟨v, ?_, List.mem_cons_of_mem _ hmem⟩
        simp only [dictLookup, if_neg hp, hv]

/-- Successful `GraphBuilder.build`: under well-formed connections and a
fully-registered layout, `build` returns graphs over the layout's instance
ids whose successor/predecessor lists are exactly the contributions of the
FLOW/DATA connections, in order. -/
lemma GraphBuilder_build_ok (layout : Layout)
    (registry : List (String × NodeMetadata))
    (hflow : ∀ c ∈ layout.connections, c.source_port_type = "FLOW" →
      sourceRef c ∈ layout.nodes.map Prod.fst)
    (hdata : ∀ c ∈ layout.connections, c.source_port_type = "DATA" →
      targetRef c ∈ layout.nodes.map Prod.fst)
    (hval : ∀ k ∈ layout.nodes.map Prod.fst, keyValidates layout.nodes registry k) :
    ∃ fg dg,
      GraphBuilder.build layout registry =
        .ok ⟨layout.nodes.map Prod.fst, fg, dg⟩ ∧
      fg.map Prod.fst = layout.nodes.map Prod.fst ∧
      (∀ v, dictGet fg v [] = flowSuccsOf v layout.connections) ∧
      dg.map Prod.fst = layout.nodes.map Prod.fst ∧
      (∀ v, dictGet dg v [] = dataPredsOf v layout.connections) := by
  obtain ⟨fg, hrunF, hkeysF, hvalF⟩ :=
    buildFlowGraph_ok layout.connections (emptyAdj (layout.nodes.map Prod.fst))
      (by intro c hc hf; rw [emptyAdj_keys]; exact hflow c hc hf)
  obtain ⟨dg, hrunD, hkeysD, hvalD⟩ :=
    buildDataGraph_ok layout.connections (emptyAdj (layout.nodes.map Prod.fst))
      (by intro c hc hd; rw [emptyAdj_keys]; exact hdata c hc hd)
  refine ⟨fg, dg, ?_, by rw [hkeysF, emptyAdj_keys], ?_, by rw [hkeysD, emptyAdj_keys], ?_⟩
  · simp only [GraphBuilder.build, hrunF, hrunD,
      validate_all_ok layout.nodes registry _ hval]
  · intro v
    rw [hvalF v, dictGet_emptyAdj]
    rfl
  · intro v
    rw [hvalD v, dictGet_emptyAdj]
    rfl

/-- C4: for every layout containing at least one instance whose node type
(from `fqnn`, or `category`.`function` in the legacy format) is absent from
the registry, `GraphBuilder.build` fails with a `ValueError` naming the type
of the first such instance (in vertex order); when every instance's type
resolves in the registry, `build` succeeds.  Connections are assumed
well-formed (FLOW sources and DATA targets are instance ids), which the
builder requires before validation runs. -/
theorem graphBuilder_build_validates
    (layout : Layout) (registry : List (String × NodeMetadata))
    (hflow : ∀ c ∈ layout.connections, c.source_port_type = "FLOW" →
      sourceRef c ∈ layout.nodes.map Prod.fst)
    (hdata : ∀ c ∈ layout.connections, c.source_port_type = "DATA" →
      targetRef c ∈ layout.nodes.map Prod.fst) :
    ((∀ k ∈ layout.nodes.map Prod.fst, keyValidates layout.nodes registry k) →
      ∃ gb, GraphBuilder.build layout registry = .ok gb) ∧
    (∀ pre post : List (String × NodeRec), ∀ k₀ f₀ nd₀,
      layout.nodes = pre ++ (k₀, nd₀) :: post →
      k₀ ∉ pre.map Prod.fst →
      (∀ k ∈ pre.map Prod.fst, keyValidates layout.nodes registry k) →
      resolveFqnn nd₀ = .ok f₀ →
      dictLookup registry f₀ = none →
      GraphBuilder.build layout registry =
        .error (.valueError ("Node '" ++ f₀ ++ "' not found in registry."))) := by
  constructor
  · intro hval
    obtain ⟨fg, dg, hrun, _⟩ := GraphBuilder_build_ok layout registry hflow hdata hval
    exact ⟨_, hrun⟩
  · intro pre post k₀ f₀ nd₀ hsplit hk₀ hpre hres hreg
    obtain ⟨fg, hrunF, _, _⟩ :=
      buildFlowGraph_ok layout.connections (emptyAdj (layout.nodes.map Prod.fst))
        (by intro c hc hf; rw [emptyAdj_keys]; exact hflow c hc hf)
    obtain ⟨dg, hrunD, _, _⟩ :=
      buildDataGraph_ok layout.connections (emptyAdj (layout.nodes.map Prod.fst))
        (by intro c hc hd; rw [emptyAdj_keys]; exact hdata c hc hd)
    have hkeys : layout.nodes.map Prod.fst =
        pre.map Prod.fst ++ k₀ :: post.map Prod.fst := by
      rw [hsplit]
      simp
    have hlook : dictLookup layout.nodes k₀ = some nd₀ := by
      rw [hsplit, dictLookup_append_of_not_mem _ _ _ hk₀]
      simp [dictLookup]
    have hvrun : validate layout.nodes registry (layout.nodes.map Prod.fst) =
        .error (.valueError ("Node '" ++ f₀ ++ "' not found in registry.")) := by
      rw [hkeys, validate_append_ok _ _ _ _ hpre]
      simp only [validate, hlook, hres]
      rw [if_neg (by rw [hreg]; simp)]
    simp only [GraphBuilder.build, hrunF, hrunD, hvrun]

/-- C4 witness: a single-instance layout; with the type registered `build`
succeeds, with an empty registry it fails naming the type. -/
theorem graphBuilder_build_validates_witness :
    (∃ gb, GraphBuilder.build
      ⟨[("n1", ⟨some "m.f", none, none⟩)], []⟩
      [("m.f", ⟨"m.f", "m", "f", "m.py", none, 1, 2, "(inputs, global_state)"⟩)] =
        .ok gb) ∧
    GraphBuilder.build ⟨[("n1", ⟨some "m.f", none, none⟩)], []⟩ [] =
      .error (.valueError "Node 'm.f' not found in registry.") := by
  constructor
  · refine (graphBuilder_build_validates
      ⟨[("n1", ⟨some "m.f", none, none⟩)], []⟩
      [("m.f", ⟨"m.f", "m", "f", "m.py", none, 1, 2, "(inputs, global_state)"⟩)]
      (by intro c hc; simp at hc) (by intro c hc; simp at hc)).1 ?_
    intro k hk
    simp only [List.map_cons, List.map_nil] at hk
    rcases List.mem_cons.mp hk with h | h
    · subst h
      exact ⟨⟨some "m.f", none, none⟩, "m.f", rfl, rfl, rfl⟩
    · simp at h
  · have h := (graphBuilder_build_validates
      ⟨[("n1", ⟨some "m.f", none, none⟩)], []⟩ []
      (by intro c hc; simp at hc) (by intro c hc; simp at hc)).2
      [] [] "n1" "m.f" ⟨some "m.f", none, none⟩ rfl (by simp)
      (by intro k hk; simp at hk) rfl rfl
    simpa using h

lemma buildDataGraph_first_err (c₀ : Connection) (post : List Connection)
    (hc₀ : c₀.source_port_type = "DATA") :
    ∀ (pre : List Connection) (g : List (String × List (String × String))),
    (∀ c ∈ pre, c.source_port_type = "DATA" → targetRef c ∈ g.map Prod.fst) →
    targetRef c₀ ∉ g.map Prod.fst →
    buildDataGraph (pre ++ c₀ :: post) g = .error (.keyError (targetRef c₀)) := by
  intro pre
  induction pre with
  | nil =>
      intro g _ htgt
      simp only [List.nil_append, buildDataGraph, if_pos hc₀,
        adjAppend_err g _ _ htgt]
  | cons c cs ih =>
      intro g hpre htgt
      by_cases hc : c.source_port_type = "DATA"
      · obtain ⟨g1, hrun1, hkeys1, _⟩ :=
          adjAppend_ok g (targetRef c) (sourceRef c, "output_data")
            (hpre c (List.mem_cons_self _ _) hc)
        simp only [List.cons_append, buildDataGraph, if_pos hc, hrun1]
        refine ih g1 ?_ ?_
        · intro c' h hd
          rw [hkeys1]
          exact hpre c' (List.mem_cons_of_mem _ h) hd
        · rw [hkeys1]
          exact htgt
      · simp only [List.cons_append, buildDataGraph, if_neg hc]
        exact ih g (fun c' h hd => hpre c' (List.mem_cons_of_mem _ h) hd) htgt

/-- C5 counterexample: a layout whose single DATA connection references the
source instance id "ghost", absent from `nodes`.  `build()` succeeds — the
dangling edge is recorded in the data graph rather than rejected — refuting
the claim that `build` fails for a missing source id. -/
theorem build_missing_data_source_accepted :
    GraphBuilder.build
      ⟨[("a", ⟨some "m.f", none, none⟩)],
        [⟨"DATA", some "ghost", none, some "a", none⟩]⟩
      [("m.f", ⟨"m.f", "m", "f", "m.py", none, 1, 2, "(inputs, global_state)"⟩)] =
      .ok ⟨["a"], [("a", [])], [("a", [("ghost", "output_data")])]⟩ ∧
    "ghost" ∉ (["a"] : List String) := by
  constructor
  · rfl
  · decide

/-- C5 (amended): when a DATA connection references a **target** instance id
absent from `nodes` (the first such connection in order, FLOW connections
being well-formed), `build` fails with a `KeyError` naming the missing id; a
missing **source** id is accepted, the edge being recorded with the dangling
source (and only dropped later at script generation). -/
theorem build_missing_data_target_fails
    (layout : Layout) (registry : List (String × NodeMetadata))
    (hflow : ∀ c ∈ layout.connections, c.source_port_type = "FLOW" →
      sourceRef c ∈ layout.nodes.map Prod.fst)
    (pre post : List Connection) (c₀ : Connection)
    (hsplit : layout.connections = pre ++ c₀ :: post)
    (hc₀ : c₀.source_port_type = "DATA")
    (htgt : targetRef c₀ ∉ layout.nodes.map Prod.fst)
    (hpre : ∀ c ∈ pre, c.source_port_type = "DATA" →
      targetRef c ∈ layout.nodes.map Prod.fst) :
    GraphBuilder.build layout registry = .error (.keyError (targetRef c₀)) := by
  obtain ⟨fg, hrunF, _, _⟩ :=
    buildFlowGraph_ok layout.connections (emptyAdj (layout.nodes.map Prod.fst))
      (by intro c hc hf; rw [emptyAdj_keys]; exact hflow c hc hf)
  have hrunD : buildDataGraph layout.connections
      (emptyAdj (layout.nodes.map Prod.fst)) = .error (.keyError (targetRef c₀)) := by
    rw [hsplit]
    refine buildDataGraph_first_err c₀ post hc₀ pre _ ?_ ?_
    · intro c hc hd
      rw [emptyAdj_keys]
      exact hpre c hc hd
    · rw [emptyAdj_keys]
      exact htgt
  simp only [GraphBuilder.build, hrunF, hrunD]

/-- C5 witness: a DATA connection targeting the absent id "ghost" makes
`build` fail with `KeyError('ghost')`. -/
theorem build_missing_data_target_fails_witness :
    GraphBuilder.build
      ⟨[("a", ⟨some "m.f", none, none⟩)],
        [⟨"DATA", some "a", none, some "ghost", none⟩]⟩ [] =
      .error (.keyError "ghost") := by
  have h := build_missing_data_target_fails
    ⟨[("a", ⟨some "m.f", none, none⟩)],
      [⟨"DATA", some "a", none, some "ghost", none⟩]⟩ []
    (by intro c hc hf; simp at hc; rw [hc] at hf; simp at hf)
    [] [] ⟨"DATA", some "a", none, some "ghost", none⟩ rfl rfl
    (by decide) (by intro c hc; simp at hc)
  simpa using h

/-! ## Executor (`src/core/executor.py`)

The synthesized script (`_generate_execution_script`) is modelled by its
run-time semantics: for each instance in the topological order whose layout
record carries a truthy `fqnn`, the script prints a flushed marker line,
builds the input mapping from the data-graph predecessors, invokes the node
function, and records the result in `node_outputs` (or the error text in
`node_errors`), both keyed by the **fqnn**.  Node functions are given by an
interpretation `impl : String → NodeFun` (the imported alias table). -/

/-- Python values flowing through the generated script (output mappings,
the shared `global_state`, …). -/
inductive PyVal where
  | dict : List (String × PyVal) → PyVal
  | str : String → PyVal
  | int : Int → PyVal

/-- Behaviour of one node function: applied to `(inputs, global_state)`, it
yields the global state as left behind (mutations persist even when the call
raises) together with either the returned mapping or the raised exception's
text `str(e)`. -/
def NodeFun : Type :=
  List (String × PyVal) → PyVal → PyVal × Except String PyVal

/-- `node_data.get('fqnn')` followed by Python truthiness (`if not fqnn:`):
an absent record, an absent key and the empty string are all falsy. -/
def truthyFqnn (o : Option NodeRec) : Option String :=
  match o with
  | none => none
  | some nd =>
      match nd.fqnn with
      | none => none
      | some s => if s = "" then none else some s

/-- The progress-marker text printed by the generated script. -/
def markerTag : String := "__PYWORKS_EXEC_NODE__"

/-- The marker line printed immediately before invoking instance `k`. -/
def markerLine (k : String) : String := markerTag ++ ":" ++ k

/-- The line printed when a node function raises (its traceback text is
abstracted by the exception text). -/
def errLine (fq e : String) : String := "🔴 Error in " ++ fq ++ ": " ++ e

/-- State of the generated script: `global_state`, `node_outputs`,
`node_errors` and the stdout transcript. -/
structure ScriptState where
  gstate : PyVal
  node_outputs : List (String × PyVal)
  node_errors : List (String × String)
  lines : List String

/-- The `inputs` dict built for one instance: starting from `{}`, for each
data-graph predecessor `(parent_key, port)` in order, when the parent record
has a truthy `fqnn` set `inputs[parent_fqnn] = node_outputs.get(parent_fqnn,
{})`; parents without a truthy `fqnn` are skipped. -/
def buildInputs (nodes_dict : List (String × NodeRec))
    (node_outputs : List (String × PyVal)) :
    List (String × String) → List (String × PyVal) → List (String × PyVal)
  | [], acc => acc
  | (parent_key, _) :: rest, acc =>
      match truthyFqnn (dictLookup nodes_dict parent_key) with
      | none => buildInputs nodes_dict node_outputs rest acc
      | some pf =>
          buildInputs nodes_dict node_outputs rest
            (dictSet acc pf (dictGet node_outputs pf (PyVal.dict [])))

/-- The input mapping passed to instance `node_key`. -/
def nodeInputs (nodes_dict : List (String × NodeRec))
    (node_outputs : List (String × PyVal))
    (data_graph : List (String × List (String × String)))
    (node_key : String) : List (String × PyVal) :=
  buildInputs nodes_dict node_outputs (dictGet data_graph node_key []) []

/-- One per-instance block of the generated script: skip silently when the
record has no truthy `fqnn`; otherwise print the marker, build the inputs,
invoke, and record output or error under the fqnn. -/
def execNode (impl : String → NodeFun) (nodes_dict : List (String × NodeRec))
    (data_graph : List (String × List (String × String)))
    (st : ScriptState) (node_key : String) : ScriptState :=
  match truthyFqnn (dictLookup nodes_dict node_key) with
  | none => st
  | some fq =>
      match impl fq (nodeInputs nodes_dict st.node_outputs data_graph node_key)
          st.gstate with
      | (g', .ok result) =>
          { gstate := g',
            node_outputs := dictSet st.node_outputs fq result,
            node_errors := st.node_errors,
            lines := st.lines ++ [markerLine node_key] }
      | (g', .error e) =>
          { gstate := g',
            node_outputs := st.node_outputs,
            node_errors := dictSet st.node_errors fq e,
            lines := st.lines ++ [markerLine node_key, errLine fq e] }

/-- Initial script state: empty `global_state`, `node_outputs`,
`node_errors`, no output yet. -/
def initState : ScriptState := ⟨PyVal.dict [], [], [], []⟩

/-- The whole generated script: run every instance in order, print the
summary line, and exit with status 0 iff `node_errors` is empty. -/
def runScript (impl : String → NodeFun) (nodes_dict : List (String × NodeRec))
    (data_graph : List (String × List (String × String)))
    (sorted_nodes : List String) : ScriptState × Nat :=
  let st := sorted_nodes.foldl (execNode impl nodes_dict data_graph) initState
  let st2 : ScriptState :=
    { st with lines := st.lines ++ ["[SUMMARY] Done"] }
  (st2, if st2.node_errors = [] then 0 else 1)

/-! Python string methods used by `_run_subprocess`, modelled over
`List Char`. -/

/-- The whitespace characters stripped by Python's `str.strip`. -/
def isPySpace (c : Char) : Bool := c = ' ' || c = '\t' || c = '\n' || c = '\r'

/-- Python `line.strip()`. -/
def pyStrip (s : String) : String :=
  ⟨((s.data.dropWhile isPySpace).reverse.dropWhile isPySpace).reverse⟩

/-- Python `line.rstrip()`. -/
def pyRstrip (s : String) : String :=
  ⟨(s.data.reverse.dropWhile isPySpace).reverse⟩

/-- Python `line.startswith(p)`. -/
def pyStartsWith (s p : String) : Bool := p.data.isPrefixOf s.data

/-- Python `str.split(sep)` for a one-character separator, over the
character list. -/
def splitOnChar (c : Char) : List Char → List (List Char)
  | [] => [[]]
  | x :: rest =>
      match splitOnChar c rest with
      | [] => [[x]]
      | grp :: gs => if x = c then [] :: grp :: gs else (x :: grp) :: gs

/-- Python `s.split(c)`. -/
def pySplitOn (s : String) (c : Char) : List String :=
  (splitOnChar c s.data).map (fun l => ⟨l⟩)

example : pySplitOn "a:b:c" ':' = ["a", "b", "c"] := rfl
example : pySplitOn "" ':' = [""] := rfl
example : pySplitOn "__PYWORKS_EXEC_NODE__:n1" ':' = ["__PYWORKS_EXEC_NODE__", "n1"] := rfl
example : pyStrip "  a b \n" = "a b" := rfl
example : pyRstrip " a\n" = " a" := rfl

/-- Events emitted by the `WorkflowExecutor` worker, in order: status
messages, the launch of the child process, the per-line protocol events and
the single terminal `finished(success, message)` event. -/
inductive RunEvent where
  | status : String → RunEvent
  | launch : RunEvent
  | activeNode : String → RunEvent
  | outputLine : String → RunEvent
  | finished : Bool → String → RunEvent
deriving DecidableEq

/-- Processing of one stdout line by `_run_subprocess`: a line starting
with the marker yields an active-node event carrying
`line.strip().split(":")[1]` — raising `IndexError` when there is no second
field — and any other line yields an output event with the line
rstripped. -/
def lineEvent (line : String) : Except String RunEvent :=
  if pyStartsWith line markerTag then
    match (pySplitOn (pyStrip line) ':').get? 1 with
    | some nid => .ok (.activeNode nid)
    | none => .error "list index out of range"
  else .ok (.outputLine (pyRstrip line))

/-- The line loop of `_run_subprocess`: events in stream order, and
`some err` when a malformed marker line raised `IndexError`, aborting the
loop (the events of later lines are lost). -/
def streamLines : List String → List RunEvent × Option String
  | [] => ([], none)
  | line :: rest =>
      match lineEvent line with
      | .ok ev =>
          ((ev :: (streamLines rest).1), (streamLines rest).2)
      | .error e => ([], some e)

/-- The tail of `_run_subprocess` (lines 148–153): once the loop finished
without raising, success is precisely `returncode == 0`, and the collected
transcript is the rstripped lines joined by newlines. -/
def runSubprocess (lines : List String) (returncode : Nat) :
    Except String (List RunEvent × Bool × String) :=
  match streamLines lines with
  | (_, some e) => .error e
  | (evs, none) =>
      .ok (evs, returncode == 0, String.intercalate "\n" (lines.map pyRstrip))

/-- `WorkflowExecutor.run`: build the graphs, stop with a single terminal
event on a cycle, otherwise sort, synthesize and launch the script, stream
its output and emit the terminal event; every exception is caught and turned
into a status message plus a failing terminal event. -/
def WorkflowExecutor.run (layout : Layout)
    (registry : List (String × NodeMetadata)) (impl : String → NodeFun) :
    List RunEvent :=
  RunEvent.status "Building execution graph..." ::
  match GraphBuilder.build layout registry with
  | .error e => [.status ("Error: " ++ e.str), .finished false e.str]
  | .ok gb =>
      match GraphBuilder.has_cycle gb with
      | .error e => [.status ("Error: " ++ e.str), .finished false e.str]
      | .ok true =>
          [.finished false "Cycle detected in FLOW graph - execution canceled!"]
      | .ok false =>
          match topological_sort gb.flow_graph gb.all_nodes with
          | .error e => [.status ("Error: " ++ e.str), .finished false e.str]
          | .ok sorted_nodes =>
              .status ("Executing " ++ toString sorted_nodes.length ++ " nodes...") ::
              .launch ::
              (match streamLines
                  (runScript impl layout.nodes gb.data_graph sorted_nodes).1.lines with
               | (evs, some e) =>
                   evs ++ [.status ("Error: " ++ e), .finished false e]
               | (evs, none) =>
                   evs ++
                   (if (runScript impl layout.nodes gb.data_graph sorted_nodes).2 = 0 then
                     [.status "Execution completed successfully",
                      .finished true "Workflow completed successfully"]
                   else
                     [.status "Execution failed",
                      .finished false "Workflow failed - check console for errors"]))

lemma flowSuccsOf_mem {v x : String} :
    ∀ cs : List Connection, x ∈ flowSuccsOf v cs →
      ∃ c ∈ cs, c.source_port_type = "FLOW" ∧ sourceRef c = v ∧ targetRef c = x := by
  intro cs
  induction cs with
  | nil => intro h; simp [flowSuccsOf] at h
  | cons c cs ih =>
      intro h
      by_cases hc : c.source_port_type = "FLOW" ∧ sourceRef c = v
      · rw [flowSuccsOf, if_pos hc] at h
        rcases List.mem_cons.mp h with h | h
        · exact ⟨c, List.mem_cons_self _ _, hc.1, hc.2, h.symm⟩
        · obtain ⟨c', hm, h1, h2, h3⟩ := ih h
          exact ⟨c', List.mem_cons_of_mem _ hm, h1, h2, h3⟩
      · rw [flowSuccsOf, if_neg hc] at h
        obtain ⟨c', hm, h1, h2, h3⟩ := ih h
        exact ⟨c', List.mem_cons_of_mem _ hm, h1, h2, h3⟩

/-- The control-flow edge relation determined by a layout's FLOW
connections. -/
def layoutFlowEdge (layout : Layout) (u v : String) : Prop :=
  v ∈ flowSuccsOf u layout.connections

/-- A single terminal event? -/
def RunEvent.isTerminal : RunEvent → Bool
  | .finished _ _ => true
  | _ => false

/-- C2: for every layout whose control graph contains a cycle (with
well-formed connections and registered instances, so that `build` itself
succeeds), `topological_sort` raises `ValueError` — no order reaches any
downstream stage — and `run()` emits exactly one terminal failure event, for
the cycle, without ever launching the child process. -/
theorem executor_cycle_aborts_before_launch
    (layout : Layout) (registry : List (String × NodeMetadata))
    (impl : String → NodeFun)
    (hnd : (layout.nodes.map Prod.fst).Nodup)
    (hflow : ∀ c ∈ layout.connections, c.source_port_type = "FLOW" →
      sourceRef c ∈ layout.nodes.map Prod.fst)
    (hflowT : ∀ c ∈ layout.connections, c.source_port_type = "FLOW" →
      targetRef c ∈ layout.nodes.map Prod.fst)
    (hdata : ∀ c ∈ layout.connections, c.source_port_type = "DATA" →
      targetRef c ∈ layout.nodes.map Prod.fst)
    (hval : ∀ k ∈ layout.nodes.map Prod.fst, keyValidates layout.nodes registry k)
    (hcyc : ∃ v, Relation.TransGen (layoutFlowEdge layout) v v) :
    (∀ gb, GraphBuilder.build layout registry = .ok gb →
      topological_sort gb.flow_graph gb.all_nodes =
        .error (.valueError "Cycle detected in FLOW graph.")) ∧
    WorkflowExecutor.run layout registry impl =
      [.status "Building execution graph...",
       .finished false "Cycle detected in FLOW graph - execution canceled!"] ∧
    ((WorkflowExecutor.run layout registry impl).countP RunEvent.isTerminal = 1) ∧
    RunEvent.launch ∉ WorkflowExecutor.run layout registry impl := by
  obtain ⟨fg, dg, hrun, hkeysF, hvalF, _, _⟩ :=
    GraphBuilder_build_ok layout registry hflow hdata hval
  -- the built flow graph is well-formed and cyclic
  have hkeys : ∀ p ∈ fg, p.1 ∈ layout.nodes.map Prod.fst := by
    intro p hp
    rw [← hkeysF]
    exact List.mem_map_of_mem Prod.fst hp
  have hsuccs : ∀ v, succs fg v = flowSuccsOf v layout.connections := by
    intro v
    rw [succs, hvalF v]
  have hclosed : ∀ u ∈ layout.nodes.map Prod.fst, ∀ c ∈ succs fg u,
      c ∈ layout.nodes.map Prod.fst := by
    intro u _ c hc
    rw [hsuccs u] at hc
    obtain ⟨conn, hm, h1, _, h3⟩ := flowSuccsOf_mem layout.connections hc
    rw [← h3]
    exact hflowT conn hm h1
  have hcycF : hasCycleSpec fg := by
    obtain ⟨v, hv⟩ := hcyc
    refine ⟨v, hv.mono ?_⟩
    intro a b h
    rw [edge, hsuccs a]
    exact h
  have hsort : topological_sort fg (layout.nodes.map Prod.fst) =
      .error (.valueError "Cycle detected in FLOW graph.") :=
    topological_sort_cyclic_error hnd hkeys hclosed hcycF
  have hcycle_check : GraphBuilder.has_cycle
      ⟨layout.nodes.map Prod.fst, fg, dg⟩ = .ok true := by
    simp only [GraphBuilder.has_cycle, hsort]
  have hrunEq : WorkflowExecutor.run layout registry impl =
      [.status "Building execution graph...",
       .finished false "Cycle detected in FLOW graph - execution canceled!"] := by
    simp only [WorkflowExecutor.run, hrun, hcycle_check]
  refine ⟨?_, hrunEq, ?_, ?_⟩
  · intro gb hgb
    rw [hrun] at hgb
    cases hgb
    exact hsort
  · rw [hrunEq]; rfl
  · rw [hrunEq]
    intro hmem
    simp [RunEvent.isTerminal] at hmem

/-- C2 witness: the two-instance layout with the control cycle a→b→a. -/
theorem executor_cycle_aborts_before_launch_witness :
    WorkflowExecutor.run
      ⟨[("a", ⟨some "m.f", none, none⟩), ("b", ⟨some "m.f", none, none⟩)],
        [⟨"FLOW", some "a", none, some "b", none⟩,
         ⟨"FLOW", some "b", none, some "a", none⟩]⟩
      [("m.f", ⟨"m.f", "m", "f", "m.py", none, 1, 2, "(inputs, global_state)"⟩)]
      (fun _ => fun _ g => (g, .ok (PyVal.dict []))) =
      [.status "Building execution graph...",
       .finished false "Cycle detected in FLOW graph - execution canceled!"] := by
  refine (executor_cycle_aborts_before_launch _ _ _
    (by decide) ?_ ?_ ?_ ?_ ?_).2.1
  · intro c hc hf
    rcases List.mem_cons.mp hc with h | h
    · rw [h]; decide
    · rcases List.mem_cons.mp h with h | h
      · rw [h]; decide
      · simp at h
  · intro c hc hf
    rcases List.mem_cons.mp hc with h | h
    · rw [h]; decide
    · rcases List.mem_cons.mp h with h | h
      · rw [h]; decide
      · simp at h
  · intro c hc hd
    rcases List.mem_cons.mp hc with h | h
    · rw [h] at hd; simp at hd
    · rcases List.mem_cons.mp h with h | h
      · rw [h] at hd; simp at hd
      · simp at h
  · intro k hk
    rcases List.mem_cons.mp hk with h | h
    · subst h
      exact ⟨⟨some "m.f", none, none⟩, "m.f", rfl, rfl, rfl⟩
    · rcases List.mem_cons.mp h with h | h
      · subst h
        exact ⟨⟨some "m.f", none, none⟩, "m.f", rfl, rfl, rfl⟩
      · simp at h
  · refine ⟨"a", Relation.TransGen.head (b := "b") ?_ (Relation.TransGen.single ?_)⟩
    · show "b" ∈ flowSuccsOf "a" _
      decide
    · show "a" ∈ flowSuccsOf "b" _
      decide

lemma dictLookup_dictSet_self {α : Type} (m : List (String × α)) (k : String)
    (v : α) : dictLookup (dictSet m k v) k = some v := by
  induction m with
  | nil =>
      simp [dictSet, dictLookup]
  | cons p r ih =>
      simp only [dictSet]
      by_cases hp : p.1 = k
      · rw [if_pos hp]
        simp [dictLookup]
      · rw [if_neg hp]
        simp only [dictLookup]
        rw [if_neg hp]
        exact ih

lemma dictLookup_dictSet_ne {α : Type} (m : List (String × α)) (k x : String)
    (v : α) (hx : x ≠ k) : dictLookup (dictSet m k v) x = dictLookup m x := by
  have hkx : ¬ k = x := fun hc => hx hc.symm
  induction m with
  | nil =>
      simp only [dictSet, dictLookup]
      rw [if_neg hkx]
  | cons p r ih =>
      simp only [dictSet]
      by_cases hp : p.1 = k
      · rw [if_pos hp]
        simp only [dictLookup]
        rw [if_neg hkx, if_neg (by rw [hp]; exact hkx)]
      · rw [if_neg hp]
        simp only [dictLookup]
        by_cases hpx : p.1 = x
        · rw [if_pos hpx, if_pos hpx]
        · rw [if_neg hpx, if_neg hpx]
          exact ih

lemma isPrefixOf_append_self (l t : List Char) : l.isPrefixOf (l ++ t) = true := by
  rw [List.isPrefixOf_iff_prefix]
  exact List.prefix_append l t

lemma pyStartsWith_markerLine (k : String) :
    pyStartsWith (markerLine k) markerTag = true := by
  show markerTag.data.isPrefixOf (markerLine k).data = true
  have hdata : (markerLine k).data = markerTag.data ++ (':' :: k.data) := by
    show ((markerTag ++ ":") ++ k).data = _
    rw [String.data_append, String.data_append]
    simp
  rw [hdata]
  exact isPrefixOf_append_self _ _

lemma pyStartsWith_errLine (fq e : String) :
    pyStartsWith (errLine fq e) markerTag = false := by
  show markerTag.data.isPrefixOf (errLine fq e).data = false
  have hdata : (errLine fq e).data =
      '🔴' :: (" Error in ".data ++ fq.data ++ (": ".data ++ e.data)) := by
    show ((("🔴 Error in " ++ fq) ++ ": ") ++ e).data = _
    rw [String.data_append, String.data_append, String.data_append]
    show ('🔴' :: " Error in ".data) ++ fq.data ++ ": ".data ++ e.data = _
    simp
  rw [hdata]
  rfl

lemma pyStartsWith_summary :
    pyStartsWith "[SUMMARY] Done" markerTag = false := rfl

/-- The marker lines of a transcript. -/
def markersOf (lines : List String) : List String :=
  lines.filter (fun l => pyStartsWith l markerTag)

lemma markersOf_append (l₁ l₂ : List String) :
    markersOf (l₁ ++ l₂) = markersOf l₁ ++ markersOf l₂ :=
  List.filter_append _ _

/-- The instances of the order the generated script actually invokes. -/
def executedNodes (nodes_dict : List (String × NodeRec))
    (sorted_nodes : List String) : List String :=
  sorted_nodes.filter (fun k => (truthyFqnn (dictLookup nodes_dict k)).isSome)

lemma executedNodes_cons (nodes_dict : List (String × NodeRec))
    (k : String) (ks : List String) :
    executedNodes nodes_dict (k :: ks) =
      if (truthyFqnn (dictLookup nodes_dict k)).isSome
      then k :: executedNodes nodes_dict ks
      else executedNodes nodes_dict ks := by
  simp [executedNodes, List.filter_cons]

lemma execNode_skip (impl : String → NodeFun)
    (nodes_dict : List (String × NodeRec))
    (data_graph : List (String × List (String × String)))
    (st : ScriptState) (k : String)
    (hf : truthyFqnn (dictLookup nodes_dict k) = none) :
    execNode impl nodes_dict data_graph st k = st := by
  rw [execNode, hf]

lemma execNode_ok (impl : String → NodeFun)
    (nodes_dict : List (String × NodeRec))
    (data_graph : List (String × List (String × String)))
    (st : ScriptState) (k fq : String) (g' result : PyVal)
    (hf : truthyFqnn (dictLookup nodes_dict k) = some fq)
    (hi : impl fq (nodeInputs nodes_dict st.node_outputs data_graph k) st.gstate =
      (g', .ok result)) :
    execNode impl nodes_dict data_graph st k =
      { gstate := g', node_outputs := dictSet st.node_outputs fq result,
        node_errors := st.node_errors,
        lines := st.lines ++ [markerLine k] } := by
  rw [execNode, hf]
  dsimp only
  rw [hi]

lemma execNode_err (impl : String → NodeFun)
    (nodes_dict : List (String × NodeRec))
    (data_graph : List (String × List (String × String)))
    (st : ScriptState) (k fq : String) (g' : PyVal) (e : String)
    (hf : truthyFqnn (dictLookup nodes_dict k) = some fq)
    (hi : impl fq (nodeInputs nodes_dict st.node_outputs data_graph k) st.gstate =
      (g', .error e)) :
    execNode impl nodes_dict data_graph st k =
      { gstate := g', node_outputs := st.node_outputs,
        node_errors := dictSet st.node_errors fq e,
        lines := st.lines ++ [markerLine k, errLine fq e] } := by
  rw [execNode, hf]
  dsimp only
  rw [hi]

lemma execNode_lines (impl : String → NodeFun)
    (nodes_dict : List (String × NodeRec))
    (data_graph : List (String × List (String × String)))
    (st : ScriptState) (k : String) :
    ∃ extra, (execNode impl nodes_dict data_graph st k).lines =
      st.lines ++ extra ∧
      markersOf extra =
        (if (truthyFqnn (dictLookup nodes_dict k)).isSome
         then [markerLine k] else []) := by
  cases hf : truthyFqnn (dictLookup nodes_dict k) with
  | none =>
      refine ⟨[], by rw [execNode_skip impl nodes_dict data_graph st k hf]; simp, ?_⟩
      simp [markersOf, hf]
  | some fq =>
      rcases himpl : impl fq (nodeInputs nodes_dict st.node_outputs data_graph k)
          st.gstate with ⟨g', res⟩
      cases res with
      | ok result =>
          refine ⟨[markerLine k], ?_, ?_⟩
          · rw [execNode_ok impl nodes_dict data_graph st k fq g' result hf himpl]
          · simp [markersOf, List.filter_cons, pyStartsWith_markerLine, hf]
      | error e =>
          refine ⟨[markerLine k, errLine fq e], ?_, ?_⟩
          · rw [execNode_err impl nodes_dict data_graph st k fq g' e hf himpl]
          · simp [markersOf, List.filter_cons, pyStartsWith_markerLine,
              pyStartsWith_errLine, hf]

lemma foldl_execNode_markers (impl : String → NodeFun)
    (nodes_dict : List (String × NodeRec))
    (data_graph : List (String × List (String × String))) :
    ∀ (order : List String) (st : ScriptState),
    markersOf ((order.foldl (execNode impl nodes_dict data_graph) st).lines) =
      markersOf st.lines ++ (executedNodes nodes_dict order).map markerLine := by
  intro order
  induction order with
  | nil => intro st; simp [executedNodes]
  | cons k ks ih =>
      intro st
      rw [List.foldl_cons, ih, executedNodes_cons]
      obtain ⟨extra, hlines, hmark⟩ :=
        execNode_lines impl nodes_dict data_graph st k
      rw [hlines, markersOf_append, hmark]
      by_cases hf : (truthyFqnn (dictLookup nodes_dict k)).isSome = true
      · rw [if_pos hf, if_pos hf]
        simp
      · rw [if_neg hf, if_neg hf]
        simp

/-- Every non-skipped instance of the order gets exactly one marker line, in
order, whatever the node functions do. -/
lemma runScript_markers (impl : String → NodeFun)
    (nodes_dict : List (String × NodeRec))
    (data_graph : List (String × List (String × String)))
    (sorted_nodes : List String) :
    markersOf (runScript impl nodes_dict data_graph sorted_nodes).1.lines =
      (executedNodes nodes_dict sorted_nodes).map markerLine := by
  show markersOf (_ ++ ["[SUMMARY] Done"]) = _
  rw [markersOf_append, foldl_execNode_markers]
  simp [markersOf, initState, List.filter_cons, pyStartsWith_summary]

lemma runScript_node_errors (impl : String → NodeFun)
    (nodes_dict : List (String × NodeRec))
    (data_graph : List (String × List (String × String)))
    (sorted_nodes : List String) :
    (runScript impl nodes_dict data_graph sorted_nodes).1.node_errors =
      (sorted_nodes.foldl (execNode impl nodes_dict data_graph)
        initState).node_errors := rfl

lemma runScript_exit (impl : String → NodeFun)
    (nodes_dict : List (String × NodeRec))
    (data_graph : List (String × List (String × String)))
    (sorted_nodes : List String) :
    (runScript impl nodes_dict data_graph sorted_nodes).2 = 0 ↔
      (runScript impl nodes_dict data_graph sorted_nodes).1.node_errors = [] := by
  show (if _ = ([] : List (String × String)) then 0 else 1) = 0 ↔ _
  by_cases h : (sorted_nodes.foldl (execNode impl nodes_dict data_graph)
      initState).node_errors = []
  · rw [if_pos h]
    simpa [runScript_node_errors] using h
  · rw [if_neg h]
    constructor
    · intro hc; exact absurd hc (by decide)
    · intro hc
      exact absurd (by simpa [runScript_node_errors] using hc) h

lemma splitOnChar_ne_nil (c : Char) : ∀ l : List Char, splitOnChar c l ≠ [] := by
  intro l
  cases l with
  | nil => simp [splitOnChar]
  | cons x rest =>
      rw [splitOnChar]
      cases hs : splitOnChar c rest with
      | nil => simp
      | cons grp gs =>
          dsimp only
          by_cases hx : x = c
          · rw [if_pos hx]; simp
          · rw [if_neg hx]; simp

lemma splitOnChar_append_cons (c : Char) (r : List Char) :
    ∀ l : List Char, (∀ x ∈ l, ¬ x = c) →
    splitOnChar c (l ++ c :: r) = l :: splitOnChar c r := by
  intro l
  induction l with
  | nil =>
      intro _
      show splitOnChar c (c :: r) = [] :: splitOnChar c r
      rw [splitOnChar]
      cases hs : splitOnChar c r with
      | nil => exact absurd hs (splitOnChar_ne_nil c r)
      | cons grp gs =>
          dsimp only
          rw [if_pos rfl]
  | cons x l ih =>
      intro hl
      have hx : ¬ x = c := hl x (List.mem_cons_self _ _)
      show splitOnChar c (x :: (l ++ c :: r)) = (x :: l) :: splitOnChar c r
      rw [splitOnChar, ih (fun y hy => hl y (List.mem_cons_of_mem _ hy))]
      dsimp only
      rw [if_neg hx]

lemma markerTag_no_colon : ∀ x ∈ markerTag.data, ¬ x = ':' := by decide

lemma isPySpace_underscore : isPySpace '_' = false := by decide

lemma isPySpace_colon : isPySpace ':' = false := by decide

lemma markerLine_data (k : String) :
    (markerLine k).data = markerTag.data ++ ':' :: k.data := by
  show ((markerTag ++ ":") ++ k).data = _
  rw [String.data_append, String.data_append]
  simp

/-- `strip()` leaves a marker line of the form `tag ++ ":" ++ suffix`:
leading characters are non-space, and trailing stripping can at most eat
into the node-key suffix. -/
lemma pyStrip_markerLine (k : String) :
    ∃ B : List Char, (pyStrip (markerLine k)).data = markerTag.data ++ ':' :: B := by
  have hfront : (markerLine k).data.dropWhile isPySpace = (markerLine k).data := by
    rw [markerLine_data]
    rfl
  show ∃ B, (((markerLine k).data.dropWhile isPySpace).reverse.dropWhile
      isPySpace).reverse = _
  rw [hfront, markerLine_data, List.reverse_append, List.reverse_cons,
    List.append_assoc, List.dropWhile_append]
  by_cases hemp : (k.data.reverse.dropWhile isPySpace).isEmpty = true
  · rw [if_pos hemp]
    refine ⟨[], ?_⟩
    rw [List.singleton_append, List.dropWhile_cons]
    rw [isPySpace_colon]
    simp
  · rw [if_neg (by simpa using hemp)]
    refine ⟨(k.data.reverse.dropWhile isPySpace).reverse, ?_⟩
    rw [List.reverse_append, List.reverse_append]
    simp

/-- A generated marker line always parses: the stripped line still begins
with `tag:`, so `split(":")[1]` exists and the protocol yields an
active-node event rather than raising. -/
lemma lineEvent_markerLine (k : String) :
    ∃ nid, lineEvent (markerLine k) = .ok (.activeNode nid) := by
  obtain ⟨B, hB⟩ := pyStrip_markerLine k
  have hsplit : pySplitOn (pyStrip (markerLine k)) ':' =
      String.mk markerTag.data :: (splitOnChar ':' B).map (fun l => String.mk l) := by
    show (splitOnChar ':' (pyStrip (markerLine k)).data).map _ = _
    rw [hB, splitOnChar_append_cons ':' B markerTag.data markerTag_no_colon]
    rfl
  have hget : ∃ nid, (pySplitOn (pyStrip (markerLine k)) ':').get? 1 = some nid := by
    rw [hsplit]
    cases hs : splitOnChar ':' B with
    | nil => exact absurd hs (splitOnChar_ne_nil ':' B)
    | cons grp gs => exact ⟨String.mk grp, by simp⟩
  obtain ⟨nid, hnid⟩ := hget
  refine ⟨nid, ?_⟩
  rw [lineEvent, if_pos (pyStartsWith_markerLine k), hnid]

lemma lineEvent_errLine (fq e : String) :
    lineEvent (errLine fq e) = .ok (.outputLine (pyRstrip (errLine fq e))) := by
  rw [lineEvent, if_neg (by rw [pyStartsWith_errLine]; exact fun hc => nomatch hc)]

lemma lineEvent_summary :
    lineEvent "[SUMMARY] Done" = .ok (.outputLine "[SUMMARY] Done") := rfl

/-- If every line of a transcript parses, the stream loop never aborts. -/
lemma streamLines_ok (lines : List String)
    (h : ∀ l ∈ lines, ∃ ev, lineEvent l = .ok ev) :
    (streamLines lines).2 = none := by
  induction lines with
  | nil => rfl
  | cons l rest ih =>
      obtain ⟨ev, hev⟩ := h l (List.mem_cons_self _ _)
      rw [streamLines, hev]
      exact ih (fun l' hl' => h l' (List.mem_cons_of_mem _ hl'))

/-- Every line of the generated script's transcript is a marker line, an
error line or the summary line. -/
lemma foldl_execNode_lines_shape (impl : String → NodeFun)
    (nodes_dict : List (String × NodeRec))
    (data_graph : List (String × List (String × String))) :
    ∀ (order : List String) (st : ScriptState),
    ∀ l ∈ (order.foldl (execNode impl nodes_dict data_graph) st).lines,
      l ∈ st.lines ∨ (∃ k, l = markerLine k) ∨ (∃ fq e, l = errLine fq e) := by
  intro order
  induction order with
  | nil =>
      intro st l hl
      exact Or.inl hl
  | cons k ks ih =>
      intro st l hl
      rw [List.foldl_cons] at hl
      rcases ih _ l hl with h | h | h
      · cases hf : truthyFqnn (dictLookup nodes_dict k) with
        | none =>
            rw [execNode_skip impl nodes_dict data_graph st k hf] at h
            exact Or.inl h
        | some fq =>
            rcases himpl : impl fq
                (nodeInputs nodes_dict st.node_outputs data_graph k) st.gstate
              with ⟨g', res⟩
            cases res with
            | ok result =>
                rw [execNode_ok impl nodes_dict data_graph st k fq g' result hf
                  himpl] at h
                rcases List.mem_append.mp h with h | h
                · exact Or.inl h
                · exact Or.inr (Or.inl ⟨k, (List.mem_singleton.mp h)⟩)
            | error e =>
                rw [execNode_err impl nodes_dict data_graph st k fq g' e hf
                  himpl] at h
                rcases List.mem_append.mp h with h | h
                · exact Or.inl h
                · rcases List.mem_cons.mp h with h | h
                  · exact Or.inr (Or.inl ⟨k, h⟩)
                  · exact Or.inr (Or.inr ⟨fq, e, List.mem_singleton.mp h⟩)
      · exact Or.inr (Or.inl h)
      · exact Or.inr (Or.inr h)

/-- The stream loop of `_run_subprocess` never aborts on a transcript the
generated script itself produced. -/
lemma streamLines_runScript_ok (impl : String → NodeFun)
    (nodes_dict : List (String × NodeRec))
    (data_graph : List (String × List (String × String)))
    (sorted_nodes : List String) :
    (streamLines (runScript impl nodes_dict data_graph sorted_nodes).1.lines).2 =
      none := by
  apply streamLines_ok
  intro l hl
  have hl' : l ∈ (sorted_nodes.foldl (execNode impl nodes_dict data_graph)
      initState).lines ++ ["[SUMMARY] Done"] := hl
  rcases List.mem_append.mp hl' with h | h
  · rcases foldl_execNode_lines_shape impl nodes_dict data_graph sorted_nodes
        initState l h with h | h | h
    · simp [initState] at h
    · obtain ⟨k, hk⟩ := h
      subst hk
      obtain ⟨nid, hnid⟩ := lineEvent_markerLine k
      exact ⟨_, hnid⟩
    · obtain ⟨fq, e, hfe⟩ := h
      subst hfe
      exact ⟨_, lineEvent_errLine fq e⟩
  · rw [List.mem_singleton.mp h]
    exact ⟨_, lineEvent_summary⟩

/-- C6: in the synthesized plan, for every execution order and every node
behaviour: (a) the designated success status (exit 0) is observed iff no
node recorded an error; (b) a marker is printed for every non-skipped
instance in order — a raising node never prevents later instances from being
attempted; (c) a raising node's error text is recorded as a string keyed by
its (fully-qualified) name; (d) the Executor's `_run_subprocess` consumes the
plan's transcript without aborting and reports overall success exactly when
the designated status is observed. -/
theorem script_isolation_and_exit_status
    (impl : String → NodeFun) (nodes_dict : List (String × NodeRec))
    (data_graph : List (String × List (String × String)))
    (sorted_nodes : List String) :
    ((runScript impl nodes_dict data_graph sorted_nodes).2 = 0 ↔
      (runScript impl nodes_dict data_graph sorted_nodes).1.node_errors = []) ∧
    (markersOf (runScript impl nodes_dict data_graph sorted_nodes).1.lines =
      (executedNodes nodes_dict sorted_nodes).map markerLine) ∧
    (∀ st k fq g' e,
      truthyFqnn (dictLookup nodes_dict k) = some fq →
      impl fq (nodeInputs nodes_dict st.node_outputs data_graph k) st.gstate =
        (g', .error e) →
      dictLookup (execNode impl nodes_dict data_graph st k).node_errors fq =
        some e) ∧
    (∃ evs, runSubprocess
        (runScript impl nodes_dict data_graph sorted_nodes).1.lines
        (runScript impl nodes_dict data_graph sorted_nodes).2 =
      .ok (evs,
        decide ((runScript impl nodes_dict data_graph sorted_nodes).1.node_errors = []),
        String.intercalate "\n"
          ((runScript impl nodes_dict data_graph sorted_nodes).1.lines.map
            pyRstrip))) := by
  refine ⟨runScript_exit impl nodes_dict data_graph sorted_nodes,
    runScript_markers impl nodes_dict data_graph sorted_nodes, ?_, ?_⟩
  · intro st k fq g' e hf hi
    rw [execNode_err impl nodes_dict data_graph st k fq g' e hf hi]
    exact dictLookup_dictSet_self _ _ _
  · rcases hs : streamLines
        (runScript impl nodes_dict data_graph sorted_nodes).1.lines with ⟨evs, err⟩
    have herr : err = none := by
      have := streamLines_runScript_ok impl nodes_dict data_graph sorted_nodes
      rw [hs] at this
      exact this
    subst herr
    refine ⟨evs, ?_⟩
    rw [runSubprocess, hs]
    have hcode : ((runScript impl nodes_dict data_graph sorted_nodes).2 == 0) =
        decide ((runScript impl nodes_dict data_graph sorted_nodes).1.node_errors
          = []) := by
      by_cases h : (runScript impl nodes_dict data_graph
          sorted_nodes).1.node_errors = []
      · rw [(runScript_exit impl nodes_dict data_graph sorted_nodes).mpr h]
        simp [h]
      · have : (runScript impl nodes_dict data_graph sorted_nodes).2 ≠ 0 :=
          fun hc =>
            h ((runScript_exit impl nodes_dict data_graph sorted_nodes).mp hc)
        simp [h, this]
    rw [hcode]

/-- C6 witness: one raising node, concretely. -/
theorem script_isolation_and_exit_status_witness :
    (runScript (fun _ => fun _ g => (g, .error "boom"))
      [("n1", ⟨some "m.f", none, none⟩)] [("n1", [])] ["n1"]).2 = 1 ∧
    dictLookup (execNode (fun _ => fun _ g => (g, .error "boom"))
      [("n1", ⟨some "m.f", none, none⟩)] [("n1", [])] initState "n1").node_errors
      "m.f" = some "boom" ∧
    markersOf (runScript (fun _ => fun _ g => (g, .error "boom"))
      [("n1", ⟨some "m.f", none, none⟩)] [("n1", [])] ["n1"]).1.lines =
      [markerLine "n1"] := by
  have h := script_isolation_and_exit_status
    (fun _ => fun _ g => (g, .error "boom"))
    [("n1", ⟨some "m.f", none, none⟩)] [("n1", [])] ["n1"]
  refine ⟨?_, ?_, ?_⟩
  · rfl
  · exact h.2.2.1 initState "n1" "m.f" (PyVal.dict []) "boom" rfl rfl
  · have h2 := h.2.1
    rw [h2]
    rfl

lemma buildInputs_lookup (nodes_dict : List (String × NodeRec))
    (outs : List (String × PyVal)) :
    ∀ (preds : List (String × String)) (acc : List (String × PyVal)) (x : String),
    dictLookup (buildInputs nodes_dict outs preds acc) x =
      if ∃ p ∈ preds, truthyFqnn (dictLookup nodes_dict p.1) = some x
      then some (dictGet outs x (PyVal.dict []))
      else dictLookup acc x := by
  intro preds
  induction preds with
  | nil =>
      intro acc x
      rw [if_neg (by simp)]
      rfl
  | cons p rest ih =>
      rcases p with ⟨pk, port⟩
      intro acc x
      show dictLookup
        (match truthyFqnn (dictLookup nodes_dict pk) with
          | none => buildInputs nodes_dict outs rest acc
          | some pf => buildInputs nodes_dict outs rest
              (dictSet acc pf (dictGet outs pf (PyVal.dict [])))) x = _
      cases hf : truthyFqnn (dictLookup nodes_dict pk) with
      | none =>
          rw [ih acc x]
          have hiff : (∃ p ∈ rest, truthyFqnn (dictLookup nodes_dict p.1) = some x)
              ↔ ∃ p ∈ (pk, port) :: rest,
                truthyFqnn (dictLookup nodes_dict p.1) = some x := by
            constructor
            · rintro ⟨q, hq, hqf⟩
              exact ⟨q, List.mem_cons_of_mem _ hq, hqf⟩
            · rintro ⟨q, hq, hqf⟩
              rcases List.mem_cons.mp hq with h | h
              · rw [h] at hqf
                simp only at hqf
                rw [hf] at hqf
                cases hqf
              · exact ⟨q, h, hqf⟩
          by_cases hrest : ∃ p ∈ rest, truthyFqnn (dictLookup nodes_dict p.1) = some x
          · rw [if_pos hrest, if_pos (hiff.mp hrest)]
          · rw [if_neg hrest, if_neg (fun hc => hrest (hiff.mpr hc))]
      | some pf =>
          rw [ih _ x]
          by_cases hx : x = pf
          · subst hx
            have hcons : ∃ p ∈ (pk, port) :: rest,
                truthyFqnn (dictLookup nodes_dict p.1) = some x :=
              ⟨(pk, port), List.mem_cons_self _ _, hf⟩
            rw [if_pos hcons]
            by_cases hrest : ∃ p ∈ rest,
                truthyFqnn (dictLookup nodes_dict p.1) = some x
            · rw [if_pos hrest]
            · rw [if_neg hrest, dictLookup_dictSet_self]
          · have hiff : (∃ p ∈ rest, truthyFqnn (dictLookup nodes_dict p.1) = some x)
                ↔ ∃ p ∈ (pk, port) :: rest,
                  truthyFqnn (dictLookup nodes_dict p.1) = some x := by
              constructor
              · rintro ⟨q, hq, hqf⟩
                exact ⟨q, List.mem_cons_of_mem _ hq, hqf⟩
              · rintro ⟨q, hq, hqf⟩
                rcases List.mem_cons.mp hq with h | h
                · rw [h] at hqf
                  simp only at hqf
                  rw [hf] at hqf
                  exact absurd (Option.some.inj hqf).symm hx
                · exact ⟨q, h, hqf⟩
            by_cases hrest : ∃ p ∈ rest,
                truthyFqnn (dictLookup nodes_dict p.1) = some x
            · rw [if_pos hrest, if_pos (hiff.mp hrest)]
            · rw [if_neg hrest, if_neg (fun hc => hrest (hiff.mpr hc)),
                dictLookup_dictSet_ne _ _ _ _ hx]

/-- C7 (amended): the input mapping of an instance contains exactly one
entry for each data-graph predecessor that itself carries a truthy `fqnn`
key, keyed by that fqnn, whose value is whatever `node_outputs` currently
records under that fqnn (the output of the most recently executed instance
of that type), or `{}` when there is none; predecessors without a truthy
`fqnn` (e.g. legacy-format records) contribute no entry, and no other keys
are present. -/
theorem nodeInputs_spec (nodes_dict : List (String × NodeRec))
    (outs : List (String × PyVal))
    (data_graph : List (String × List (String × String)))
    (node_key x : String) :
    dictLookup (nodeInputs nodes_dict outs data_graph node_key) x =
      if ∃ p ∈ dictGet data_graph node_key [],
          truthyFqnn (dictLookup nodes_dict p.1) = some x
      then some (dictGet outs x (PyVal.dict []))
      else none := by
  rw [nodeInputs, buildInputs_lookup]
  rfl

/-- C7 counterexample: instance "b" (type "m.g") has the single data
predecessor "a", a legacy-format record whose fully-qualified name resolves
to "m.f"; with echoing node functions, "b" receives an **empty** input
mapping — no entry keyed "m.f" is ever added — refuting the claim that every
data predecessor contributes exactly one entry keyed by its fully-qualified
name. -/
theorem nodeInputs_legacy_parent_dropped :
    resolveFqnn ⟨none, some "m", some "f"⟩ = .ok "m.f" ∧
    dictGet [("a", ([] : List (String × String))), ("b", [("a", "output_data")])]
      "b" [] = [("a", "output_data")] ∧
    dictLookup (runScript (fun _ => fun inputs g => (g, .ok (PyVal.dict inputs)))
        [("a", ⟨none, some "m", some "f"⟩), ("b", ⟨some "m.g", none, none⟩)]
        [("a", []), ("b", [("a", "output_data")])]
        ["a", "b"]).1.node_outputs "m.g" = some (PyVal.dict []) := by
  exact ⟨rfl, rfl, rfl⟩

/-- C8 counterexample: two distinct instances "t1", "t2" of the same node
type "m.f", whose invocations return `100` and `200` respectively.  The
final `node_outputs` holds a single entry, keyed by the **fqnn**: the second
instance overwrote the first's output, and neither instance id has an
entry. -/
theorem node_outputs_same_type_overwrite :
    (runScript
      (fun _ => fun _ g =>
        match g with
        | PyVal.dict [] => (PyVal.int 1, .ok (PyVal.int 100))
        | _ => (g, .ok (PyVal.int 200)))
      [("t1", ⟨some "m.f", none, none⟩), ("t2", ⟨some "m.f", none, none⟩)]
      [("t1", []), ("t2", [])]
      ["t1", "t2"]).1.node_outputs = [("m.f", PyVal.int 200)] ∧
    dictLookup (runScript
      (fun _ => fun _ g =>
        match g with
        | PyVal.dict [] => (PyVal.int 1, .ok (PyVal.int 100))
        | _ => (g, .ok (PyVal.int 200)))
      [("t1", ⟨some "m.f", none, none⟩), ("t2", ⟨some "m.f", none, none⟩)]
      [("t1", []), ("t2", [])]
      ["t1", "t2"]).1.node_outputs "t1" = none := by
  exact ⟨rfl, rfl⟩

/-- C8 (amended): within one run, `node_outputs` and `node_errors` are keyed
by the node's **fully-qualified type name**, not the instance id: a
successful invocation stores its result under the instance's fqnn
(overwriting any entry a previous instance of the same type recorded),
leaves every other key untouched, and records no error; hence two distinct
instances of one type share a single entry. -/
theorem node_outputs_keyed_by_fqnn
    (impl : String → NodeFun) (nodes_dict : List (String × NodeRec))
    (data_graph : List (String × List (String × String)))
    (st : ScriptState) (k fq : String) (g' result : PyVal)
    (hf : truthyFqnn (dictLookup nodes_dict k) = some fq)
    (hi : impl fq (nodeInputs nodes_dict st.node_outputs data_graph k) st.gstate =
      (g', .ok result)) :
    (execNode impl nodes_dict data_graph st k).node_outputs =
      dictSet st.node_outputs fq result ∧
    dictLookup (execNode impl nodes_dict data_graph st k).node_outputs fq =
      some result ∧
    (∀ x, x ≠ fq →
      dictLookup (execNode impl nodes_dict data_graph st k).node_outputs x =
        dictLookup st.node_outputs x) ∧
    (execNode impl nodes_dict data_graph st k).node_errors = st.node_errors := by
  rw [execNode_ok impl nodes_dict data_graph st k fq g' result hf hi]
  refine ⟨rfl, dictLookup_dictSet_self _ _ _, ?_, rfl⟩
  intro x hx
  exact dictLookup_dictSet_ne _ _ _ _ hx

/-- C8 witness: concrete overwrite, derived from the keyed-by-fqnn
theorem. -/
theorem node_outputs_keyed_by_fqnn_witness :
    dictLookup (execNode (fun _ => fun _ g => (g, .ok (PyVal.int 7)))
      [("t1", ⟨some "m.f", none, none⟩)] [("t1", [])]
      ⟨PyVal.dict [], [("m.f", PyVal.int 5)], [], []⟩ "t1").node_outputs "m.f" =
      some (PyVal.int 7) ∧
    (execNode (fun _ => fun _ g => (g, .ok (PyVal.int 7)))
      [("t1", ⟨some "m.f", none, none⟩)] [("t1", [])]
      ⟨PyVal.dict [], [("m.f", PyVal.int 5)], [], []⟩ "t1").node_errors = [] := by
  have h := node_outputs_keyed_by_fqnn
    (fun _ => fun _ g => (g, .ok (PyVal.int 7)))
    [("t1", ⟨some "m.f", none, none⟩)] [("t1", [])]
    ⟨PyVal.dict [], [("m.f", PyVal.int 5)], [], []⟩ "t1" "m.f"
    (PyVal.dict []) (PyVal.int 7) rfl rfl
  exact ⟨h.2.1, h.2.2.2⟩

/-- C10: an instance whose layout record lacks the `fqnn` key is silently
skipped by the script synthesizer: its execution step is the identity on the
script state (no marker line, no invocation, no recorded output or error),
and the whole run — transcript, outputs, errors and exit status — is the
same as if the instance were absent from the order. -/
theorem legacy_nodes_skipped
    (impl : String → NodeFun) (nodes_dict : List (String × NodeRec))
    (data_graph : List (String × List (String × String)))
    (k : String) (r : NodeRec)
    (hlk : dictLookup nodes_dict k = some r) (hfq : r.fqnn = none) :
    (∀ st, execNode impl nodes_dict data_graph st k = st) ∧
    (∀ pre post, runScript impl nodes_dict data_graph (pre ++ k :: post) =
      runScript impl nodes_dict data_graph (pre ++ post)) := by
  have hf : truthyFqnn (dictLookup nodes_dict k) = none := by
    rw [hlk, truthyFqnn, hfq]
  have hskip : ∀ st, execNode impl nodes_dict data_graph st k = st :=
    fun st => execNode_skip impl nodes_dict data_graph st k hf
  refine ⟨hskip, ?_⟩
  intro pre post
  have hfold : ∀ st : ScriptState,
      (pre ++ k :: post).foldl (execNode impl nodes_dict data_graph) st =
        (pre ++ post).foldl (execNode impl nodes_dict data_graph) st := by
    intro st
    rw [List.foldl_append, List.foldl_append, List.foldl_cons, hskip]
  unfold runScript
  rw [hfold initState]

/-- C10 witness: a two-instance order where the first record has no `fqnn`
key. -/
theorem legacy_nodes_skipped_witness :
    runScript (fun _ => fun _ g => (g, .ok (PyVal.dict [])))
      [("a", ⟨none, some "m", some "f"⟩), ("b", ⟨some "m.g", none, none⟩)]
      [("a", []), ("b", [])] (["a"] ++ ["b"]) =
    runScript (fun _ => fun _ g => (g, .ok (PyVal.dict [])))
      [("a", ⟨none, some "m", some "f"⟩), ("b", ⟨some "m.g", none, none⟩)]
      [("a", []), ("b", [])] ["b"] := by
  have h := (legacy_nodes_skipped
    (fun _ => fun _ g => (g, .ok (PyVal.dict [])))
    [("a", ⟨none, some "m", some "f"⟩), ("b", ⟨some "m.g", none, none⟩)]
    [("a", []), ("b", [])] "a" ⟨none, some "m", some "f"⟩ rfl rfl).2 [] ["b"]
  simpa using h

/-- C9 counterexample: the line `__PYWORKS_EXEC_NODE__` matches the marker
prefix but has no `:` field, so `line.strip().split(":")[1]` raises
`IndexError`: the stream loop aborts instead of degrading the line to a
plain output event. -/
theorem stream_malformed_marker_aborts :
    streamLines ["__PYWORKS_EXEC_NODE__"] = ([], some "list index out of range") ∧
    pyStartsWith "__PYWORKS_EXEC_NODE__" markerTag = true := by
  exact ⟨rfl, rfl⟩

/-- C9 (amended): in stream order, a line matching the marker prefix whose
stripped text has a second `:`-separated field yields exactly one
active-node event carrying that field; any non-marker line yields exactly
one plain output event; but a line matching the marker prefix **without** a
second field raises `IndexError` and aborts the run (it is not degraded to
plain output).  The plan prints a flushed marker line identifying the
instance immediately before each invocation. -/
theorem stream_protocol_spec :
    (∀ line rest nid, pyStartsWith line markerTag = true →
      (pySplitOn (pyStrip line) ':').get? 1 = some nid →
      streamLines (line :: rest) =
        (RunEvent.activeNode nid :: (streamLines rest).1, (streamLines rest).2)) ∧
    (∀ line rest, pyStartsWith line markerTag = true →
      (pySplitOn (pyStrip line) ':').get? 1 = none →
      streamLines (line :: rest) = ([], some "list index out of range")) ∧
    (∀ line rest, pyStartsWith line markerTag = false →
      streamLines (line :: rest) =
        (RunEvent.outputLine (pyRstrip line) :: (streamLines rest).1,
          (streamLines rest).2)) ∧
    (∀ (impl : String → NodeFun) (nodes_dict : List (String × NodeRec))
        (data_graph : List (String × List (String × String)))
        (st : ScriptState) (k fq : String),
      truthyFqnn (dictLookup nodes_dict k) = some fq →
      ∃ rest, (execNode impl nodes_dict data_graph st k).lines =
        st.lines ++ markerLine k :: rest) := by
  refine ⟨?_, ?_, ?_, ?_⟩
  · intro line rest nid hs hget
    rw [streamLines, lineEvent, if_pos hs, hget]
  · intro line rest hs hget
    rw [streamLines, lineEvent, if_pos hs, hget]
  · intro line rest hs
    rw [streamLines, lineEvent, if_neg (by rw [hs]; exact fun hc => nomatch hc)]
  · intro impl nodes_dict data_graph st k fq hf
    rcases himpl : impl fq (nodeInputs nodes_dict st.node_outputs data_graph k)
        st.gstate with ⟨g', res⟩
    cases res with
    | ok result =>
        refine ⟨[], ?_⟩
        rw [execNode_ok impl nodes_dict data_graph st k fq g' result hf himpl]
    | error e =>
        refine ⟨[errLine fq e], ?_⟩
        rw [execNode_err impl nodes_dict data_graph st k fq g' e hf himpl]

/-- C9 witness: a well-formed marker line yields one active-node event; a
plain line yields one output event. -/
theorem stream_protocol_spec_witness :
    streamLines ["__PYWORKS_EXEC_NODE__:n1"] = ([RunEvent.activeNode "n1"], none) ∧
    streamLines ["hello"] = ([RunEvent.outputLine "hello"], none) := by
  constructor
  · have h := stream_protocol_spec.1 "__PYWORKS_EXEC_NODE__:n1" [] "n1" rfl rfl
    simpa using h
  · have h := stream_protocol_spec.2.2.1 "hello" [] rfl
    simpa using h

/-! ## Node discovery (`src/core/ast_utils.py`)

`extract_nodes_from_file` reads and parses a source file with `ast.parse`
and walks the module body; parsing is modelled by its outcome, an
`Except String (List PyStmt)` (a `SyntaxError` message or the parsed
top-level statements).  The extraction itself is a pure function of the
parse tree: the scanned file is never executed. -/

/-- A decorator expression: `ast.Name`, `ast.Attribute` (with its `attr`
field), or anything else. -/
inductive PyDecorator where
  | nameDec : String → PyDecorator
  | attributeDec : String → PyDecorator
  | otherDec : PyDecorator
deriving DecidableEq

/-- A top-level statement of a parsed module, with the fields the
discoverer reads. -/
inductive PyStmt where
  | functionDef (nm : String) (decorators : List PyDecorator)
      (args : List String) (doc : Option String) (lineno end_lineno : Nat)
  | asyncFunctionDef (nm : String) (decorators : List PyDecorator)
  | classDef (nm : String) (decorators : List PyDecorator)
  | otherStmt
deriving DecidableEq

/-- One decorator matches the tag when it is `Name(id=tag)` or
`Attribute(attr=tag)`. -/
def decoratorMatches (nm : String) : PyDecorator → Bool
  | .nameDec i => i = nm
  | .attributeDec a => a = nm
  | .otherDec => false

/-- `has_node_decorator`: function defs (sync or async) and class defs are
inspected; anything else has no decorators. -/
def has_node_decorator (s : PyStmt) (nm : String) : Bool :=
  match s with
  | .functionDef _ decs _ _ _ _ => decs.any (decoratorMatches nm)
  | .asyncFunctionDef _ decs => decs.any (decoratorMatches nm)
  | .classDef _ decs => decs.any (decoratorMatches nm)
  | .otherStmt => false

/-- `extract_function_signature`: comma-join the positional argument
names. -/
def extract_function_signature (args : List String) : String :=
  "(" ++ String.intercalate ", " args ++ ")"

/-- The metadata dictionary built per discovered node. -/
structure DiscoveredNode where
  fqnn : String
  category : String
  function_name : String
  signature : String
  file_path : String
  docstring : Option String
  lineno : Nat
  end_lineno : Nat
deriving DecidableEq

/-- The `for node in tree.body` loop: only synchronous top-level
`FunctionDef`s carrying the `node` decorator are collected, keyed by
`f"{category}.{node.name}"`. -/
def extractLoop (category file_path : String) :
    List PyStmt → List (String × DiscoveredNode) →
    List (String × DiscoveredNode)
  | [], acc => acc
  | s :: rest, acc =>
      match s with
      | .functionDef nm decs args doc l el =>
          if has_node_decorator (.functionDef nm decs args doc l el) "node"
          then
            extractLoop category file_path rest
              (dictSet acc (category ++ "." ++ nm)
                ⟨category ++ "." ++ nm, category, nm,
                  extract_function_signature args, file_path, doc, l, el⟩)
          else extractLoop category file_path rest acc
      | _ => extractLoop category file_path rest acc

/-- `extract_nodes_from_file(file_path, category)`: on a `SyntaxError` the
function prints a message and **returns the empty dict** (it does not
raise); otherwise it returns the collected decorated functions. -/
def extract_nodes_from_file
    (parsed : Except String (List PyStmt)) (file_path category : String) :
    Except PyError (List (String × DiscoveredNode)) :=
  match parsed with
  | .error _ => .ok []
  | .ok body => .ok (extractLoop category file_path body [])

lemma dictLookup_dictSet_isSome {α : Type} (m : List (String × α))
    (k x : String) (v : α) :
    (∃ w, dictLookup (dictSet m k v) x = some w) ↔
      x = k ∨ ∃ w, dictLookup m x = some w := by
  by_cases hx : x = k
  · subst hx
    rw [dictLookup_dictSet_self]
    simp
  · rw [dictLookup_dictSet_ne _ _ _ _ hx]
    simp [hx]

lemma extractLoop_cons_fnDef (category file_path nm : String)
    (decs : List PyDecorator) (args : List String) (doc : Option String)
    (l el : Nat) (rest : List PyStmt) (acc : List (String × DiscoveredNode)) :
    extractLoop category file_path
        (PyStmt.functionDef nm decs args doc l el :: rest) acc =
      if has_node_decorator (.functionDef nm decs args doc l el) "node"
      then extractLoop category file_path rest
        (dictSet acc (category ++ "." ++ nm)
          ⟨category ++ "." ++ nm, category, nm,
            extract_function_signature args, file_path, doc, l, el⟩)
      else extractLoop category file_path rest acc := rfl

lemma extractLoop_mem (category file_path : String) :
    ∀ (body : List PyStmt) (acc : List (String × DiscoveredNode)) (x : String),
    (∃ v, dictLookup (extractLoop category file_path body acc) x = some v) ↔
      ((∃ v, dictLookup acc x = some v) ∨
        ∃ nm decs args doc l el,
          PyStmt.functionDef nm decs args doc l el ∈ body ∧
          has_node_decorator (.functionDef nm decs args doc l el) "node" = true ∧
          category ++ "." ++ nm = x) := by
  intro body
  induction body with
  | nil =>
      intro acc x
      simp [extractLoop]
  | cons s rest ih =>
      intro acc x
      cases s with
      | functionDef nm decs args doc l el =>
          by_cases hdec :
              has_node_decorator (.functionDef nm decs args doc l el) "node" = true
          · rw [extractLoop_cons_fnDef, if_pos hdec, ih, dictLookup_dictSet_isSome]
            constructor
            · rintro (⟨hx | hacc⟩ | ⟨nm', decs', args', doc', l', el', hmem, hd, hfq⟩)
              · exact Or.inr ⟨nm, decs, args, doc, l, el,
                  List.mem_cons_self _ _, hdec, hx.symm⟩
              · exact Or.inl hacc
              · exact Or.inr ⟨nm', decs', args', doc', l', el',
                  List.mem_cons_of_mem _ hmem, hd, hfq⟩
            · rintro (hacc | ⟨nm', decs', args', doc', l', el', hmem, hd, hfq⟩)
              · exact Or.inl (Or.inr hacc)
              · rcases List.mem_cons.mp hmem with h | h
                · cases h
                  exact Or.inl (Or.inl hfq.symm)
                · exact Or.inr ⟨nm', decs', args', doc', l', el', h, hd, hfq⟩
          · rw [extractLoop_cons_fnDef, if_neg hdec, ih]
            constructor
            · rintro (hacc | ⟨nm', decs', args', doc', l', el', hmem, hd, hfq⟩)
              · exact Or.inl hacc
              · exact Or.inr ⟨nm', decs', args', doc', l', el',
                  List.mem_cons_of_mem _ hmem, hd, hfq⟩
            · rintro (hacc | ⟨nm', decs', args', doc', l', el', hmem, hd, hfq⟩)
              · exact Or.inl hacc
              · rcases List.mem_cons.mp hmem with h | h
                · cases h
                  exact absurd hd hdec
                · exact Or.inr ⟨nm', decs', args', doc', l', el', h, hd, hfq⟩
      | asyncFunctionDef nm decs =>
          rw [show extractLoop category file_path
              (PyStmt.asyncFunctionDef nm decs :: rest) acc =
              extractLoop category file_path rest acc from rfl, ih]
          constructor
          · rintro (hacc | ⟨nm', decs', args', doc', l', el', hmem, hd, hfq⟩)
            · exact Or.inl hacc
            · exact Or.inr ⟨nm', decs', args', doc', l', el',
                List.mem_cons_of_mem _ hmem, hd, hfq⟩
          · rintro (hacc | ⟨nm', decs', args', doc', l', el', hmem, hd, hfq⟩)
            · exact Or.inl hacc
            · rcases List.mem_cons.mp hmem with h | h
              · cases h
              · exact Or.inr ⟨nm', decs', args', doc', l', el', h, hd, hfq⟩
      | classDef nm decs =>
          rw [show extractLoop category file_path
              (PyStmt.classDef nm decs :: rest) acc =
              extractLoop category file_path rest acc from rfl, ih]
          constructor
          · rintro (hacc | ⟨nm', decs', args', doc', l', el', hmem, hd, hfq⟩)
            · exact Or.inl hacc
            · exact Or.inr ⟨nm', decs', args', doc', l', el',
                List.mem_cons_of_mem _ hmem, hd, hfq⟩
          · rintro (hacc | ⟨nm', decs', args', doc', l', el', hmem, hd, hfq⟩)
            · exact Or.inl hacc
            · rcases List.mem_cons.mp hmem with h | h
              · cases h
              · exact Or.inr ⟨nm', decs', args', doc', l', el', h, hd, hfq⟩
      | otherStmt =>
          rw [show extractLoop category file_path
              (PyStmt.otherStmt :: rest) acc =
              extractLoop category file_path rest acc from rfl, ih]
          constructor
          · rintro (hacc | ⟨nm', decs', args', doc', l', el', hmem, hd, hfq⟩)
            · exact Or.inl hacc
            · exact Or.inr ⟨nm', decs', args', doc', l', el',
                List.mem_cons_of_mem _ hmem, hd, hfq⟩
          · rintro (hacc | ⟨nm', decs', args', doc', l', el', hmem, hd, hfq⟩)
            · exact Or.inl hacc
            · rcases List.mem_cons.mp hmem with h | h
              · cases h
              · exact Or.inr ⟨nm', decs', args', doc', l', el', h, hd, hfq⟩

/-- C3 counterexample: on unparsable source the extraction **returns**
normally with the empty mapping — it does not fail. -/
theorem extract_unparsable_returns_empty :
    extract_nodes_from_file (.error "invalid syntax (<unknown>, line 3)")
      "nodes/bad.py" "bad" = .ok [] ∧
    (extract_nodes_from_file (.error "invalid syntax (<unknown>, line 3)")
      "nodes/bad.py" "bad").isOk = true := by
  exact ⟨rfl, rfl⟩

/-- C3 (amended): extraction never signals failure to the caller — on
unparsable source it logs the syntax error and returns the empty mapping;
on parsable source it is a pure structural function of the parse tree (the
scanned file is never executed), whose keys are exactly
`f"{category}.{name}"` for the top-level synchronous function definitions
carrying the `node` decorator. -/
theorem extract_nodes_never_fails :
    (∀ (parsed : Except String (List PyStmt)) (fp cat : String),
      ∃ r, extract_nodes_from_file parsed fp cat = .ok r) ∧
    (∀ err fp cat, extract_nodes_from_file (.error err) fp cat = .ok []) ∧
    (∀ (body : List PyStmt) (fp cat : String)
        (r : List (String × DiscoveredNode)),
      extract_nodes_from_file (.ok body) fp cat = .ok r →
      ∀ x, (∃ v, dictLookup r x = some v) ↔
        ∃ nm decs args doc l el,
          PyStmt.functionDef nm decs args doc l el ∈ body ∧
          has_node_decorator (.functionDef nm decs args doc l el) "node" = true ∧
          cat ++ "." ++ nm = x) := by
  refine ⟨?_, ?_, ?_⟩
  · intro parsed fp cat
    cases parsed with
    | error e => exact ⟨[], rfl⟩
    | ok body => exact ⟨extractLoop cat fp body [], rfl⟩
  · intro err fp cat
    rfl
  · intro body fp cat r hr x
    have hre : r = extractLoop cat fp body [] := by
      have : Except.ok (ε := PyError) (extractLoop cat fp body []) = .ok r := hr
      exact (Except.ok.inj this).symm
    subst hre
    rw [extractLoop_mem cat fp body [] x]
    simp [dictLookup]

/-- C3 witness: one decorated and one undecorated function. -/
theorem extract_nodes_never_fails_witness :
    (∃ r, extract_nodes_from_file
      (.ok [PyStmt.functionDef "go" [PyDecorator.nameDec "node"]
              ["inputs", "global_state"] none 2 5,
            PyStmt.functionDef "helper" [] [] none 7 9])
      "nodes/example.py" "example" = .ok r) ∧
    (∃ v, dictLookup (extractLoop "example" "nodes/example.py"
      [PyStmt.functionDef "go" [PyDecorator.nameDec "node"]
          ["inputs", "global_state"] none 2 5,
        PyStmt.functionDef "helper" [] [] none 7 9] []) "example.go" = some v) := by
  constructor
  · exact extract_nodes_never_fails.1 _ _ _
  · refine (extract_nodes_never_fails.2.2
      [PyStmt.functionDef "go" [PyDecorator.nameDec "node"]
          ["inputs", "global_state"] none 2 5,
        PyStmt.functionDef "helper" [] [] none 7 9]
      "nodes/example.py" "example" _ rfl "example.go").mpr ?_
    exact ⟨"go", [PyDecorator.nameDec "node"], ["inputs", "global_state"],
      none, 2, 5, List.mem_cons_self _ _, by decide, rfl⟩
